import Mathlib

/-!
Verification of the modz dependency-wiring engine.

This file gives a shallow embedding, in Lean 4, of the Go package `modz`
(assembly.go / binder.go / module.go / data_registry.go / errors.go) and
proves properties of the embedded operations.

Modelling conventions:
* Go maps are embedded as association lists with unique keys; map iteration
  (which Go leaves unordered) is modelled by list order, with insertion
  order as the canonical iteration order.
* Go pointers to `binder` values shared between the bindings map, the waiter
  index and the ready queue are modelled by storing module signatures in the
  waiter index and ready queue and keeping the single authoritative binding
  record in the bindings map.
* Go `error` values (built with fmt.Errorf) are embedded as a structured
  inductive type so that "the error names X" is checkable.
* A module's Configure method (arbitrary Go code receiving a Binder) is
  embedded as a script of Binder operations, since the Binder facade is the
  only access a module has to the engine's state.
-/

namespace Modz

/-- Identity of a data key: package and name, as in `dataKeySignature`. -/
structure DataKeySig where
  pkg : String
  name : String
deriving DecidableEq, Repr

/-- A data key handle, as in `dataKey[T]`: its signature plus the
process-unique serial number.  Distinct handles have distinct serials, which
models Go pointer identity of `*dataKey[T]` values used as map keys. -/
structure DataKey where
  sig : DataKeySig
  serial : Nat
deriving DecidableEq, Repr

/-- Identity of a module, as in `moduleSignature`: package path and name. -/
structure ModuleSig where
  packageName : String
  name : String
deriving DecidableEq, Repr

/-- Stored values (`any` in Go).  The claims under verification do not
depend on the payload type, so a single concrete type suffices. -/
abbrev Value := Int

/-- Structured embedding of the error values produced by the engine
(fmt.Errorf strings in Go, see errors.go helpers `newInstallError`,
`newDataOperationError`, `newPhaseError`, `newUndeclaredKeyError`,
`ConfigurationError`, `newFailFastError`). -/
inductive ModzError where
  /-- install: "cannot add nil module" -/
  | installNil : ModzError
  /-- install: "module %q already added" -/
  | alreadyAdded (sig : ModuleSig) : ModzError
  /-- discoverModule: "failed to convert produces/consumes to set"
      (duplicate entries in the declared list) -/
  | discoveryDup (which : String) (sig : ModuleSig) : ModzError
  /-- dataRegistry.Validate: "data key signature clash" -/
  | signatureClash (sig : DataKeySig) (existing incoming : DataKey) : ModzError
  /-- install: "duplicate producer for data key ... modules ... and ... both
      declare they produce it" -/
  | duplicateProducer (k : DataKey) (existing incoming : ModuleSig) : ModzError
  /-- getDataValue/putDataValue: "cannot get/put data with nil key" -/
  | dataNilKey : ModzError
  /-- getDataValue: "data key ...: no value found" -/
  | noValueFound (k : DataKey) : ModzError
  /-- putDataValue: "data key ...: already set" -/
  | alreadySet (k : DataKey) : ModzError
  /-- binder Install/getData/putData: "... can only be called during module
      configuration phase for module %q" -/
  | phaseError (operation : String) (sig : ModuleSig) : ModzError
  /-- binder getData/putData: "module %q did not declare key in
      Consumes/Produces" -/
  | undeclaredKey (sig : ModuleSig) (k : DataKey) (decl : String) : ModzError
  /-- configureModule: "module %s did not produce all declared keys: %v" -/
  | notProduced (sig : ModuleSig) (missing : List DataKey) : ModzError
  /-- configureModule: "configureModule can only be called once for
      module %q" -/
  | configureOnce (sig : ModuleSig) : ModzError
  /-- Build: "Build: can only be called once" -/
  | buildTwice : ModzError
  /-- Build: "build incomplete: some modules are still waiting for data
      keys: %v" -/
  | buildIncomplete (keys : List DataKey) : ModzError
  /-- assembly.getData: "getData: can only be called after Build has
      completed successfully" -/
  | notBuilt : ModzError
  /-- An error returned by the module's own Configure code
      (e.g. fmt.Errorf("configure failed") inside a module). -/
  | moduleErr (msg : String) : ModzError
  /-- ConfigurationError: "module '%s' %s: %v" wrapping an underlying error
      with the module name and the failing operation. -/
  | configurationError (moduleName : String) (operation : String)
      (err : ModzError) : ModzError
  /-- newFailFastError: "%s: failed due to previous error: %w" — the
      operation context is already invalid. -/
  | failFast (operation : String) (previous : ModzError) : ModzError
  /-- Modelling artifact: a binder operation addressed to a signature with
      no binding in the assembly (unreachable through the engine's own
      control flow, where binders are created by install). -/
  | noBinding (sig : ModuleSig) : ModzError
deriving DecidableEq, Repr

section AssocList

variable {α : Type} {β : Type} [DecidableEq α]

/-- Association-list lookup (Go map read). -/
def alookup : List (α × β) → α → Option β
  | [], _ => none
  | (k, v) :: rest, key => if k = key then some v else alookup rest key

/-- Association-list write (Go map write): replace the entry if the key is
present, otherwise append. -/
def aset : List (α × β) → α → β → List (α × β)
  | [], key, val => [(key, val)]
  | (k, v) :: rest, key, val =>
    if k = key then (key, val) :: rest else (k, v) :: aset rest key val

/-- Association-list delete (Go map delete). -/
def adel : List (α × β) → α → List (α × β)
  | [], _ => []
  | (k, v) :: rest, key => if k = key then rest else (k, v) :: adel rest key

end AssocList

/-- The non-recursive data of a module: its identity-forming fields, its
declared produce/consume lists, the capability marker, and the shape of the
error behaviour of its Configure code.

`isSingleton` embeds the `Singleton` marker from module.go ("a marker
interface that can be embedded in modules to indicate they will be silently
ignored when installed multiple times"), following the spec's design note to
express the capability as an explicit flag.

`swallow` distinguishes Configure bodies that propagate the first Binder
operation error (`if err != nil { return err }` after each call) from bodies
that ignore all Binder errors; `finalErr` is an error the module's own code
returns at the end (none = `return nil`). -/
structure ModuleCore where
  pkg : String
  name : String
  producesL : List DataKey
  consumesL : List DataKey
  isSingleton : Bool
  swallow : Bool
  finalErr : Option ModzError
deriving Repr

mutual
/-- A module: its core data plus its Configure body, embedded as a script of
Binder operations. -/
inductive GoModule where
  | mk (core : ModuleCore) (ops : List ConfigOp)

/-- One Binder operation performed by a module's Configure code:
`Install` a further module, `getData` a key, or `putData` a key/value. -/
inductive ConfigOp where
  | installM (m : GoModule)
  | getD (k : DataKey)
  | putD (k : DataKey) (v : Value)
end

/-- Core data of a module. -/
def GoModule.core : GoModule → ModuleCore
  | .mk c _ => c

/-- Configure script of a module. -/
def GoModule.ops : GoModule → List ConfigOp
  | .mk _ o => o

/-- `newModuleSignature`: the signature derives from the module's package
and Name(). -/
def newModuleSignature (m : GoModule) : ModuleSig :=
  ⟨m.core.pkg, m.core.name⟩

/-- A binding (`binder` struct in binder.go): per-module runtime record. -/
structure Binding where
  moduleSignature : ModuleSig
  mod : GoModule
  parent : Option ModuleSig
  produces : List DataKey
  consumes : List DataKey
  waiting : List DataKey
  produced : List DataKey
  inProgress : Bool
  configured : Bool

/-- The engine state (`assembly` struct in assembly.go).  The mutex is not
modelled: Build drains the queue strictly sequentially and every operation
is atomic at this level of abstraction. -/
structure AssemblyState where
  bindings : List (ModuleSig × Binding)
  registry : List (DataKeySig × DataKey)
  data : List (DataKey × Value)
  waiters : List (DataKey × List ModuleSig)
  producers : List (DataKey × ModuleSig)
  ready : List ModuleSig
  built : Bool
  buildCompleted : Bool

/-- The freshly constructed engine state (`NewAssembly` before installing
the initial modules). -/
def emptyAssembly : AssemblyState :=
  ⟨[], [], [], [], [], [], false, false⟩

/-- commonz.SliceToSet with strict=true: converts a declared key list to a
set, rejecting duplicates.  The set's (unordered, in Go) iteration order is
modelled by the declaration order. -/
def sliceToSet (which : String) (sig : ModuleSig) (l : List DataKey) :
    Except ModzError (List DataKey) :=
  if l.Nodup then .ok l else .error (.discoveryDup which sig)

/-- `binder.discoverModule`: populate produces and consumes, and initialize
waiting as a copy of consumes. -/
def discoverModule (sig : ModuleSig) (m : GoModule) :
    Except ModzError (List DataKey × List DataKey) := do
  let produces ← sliceToSet "produces" sig m.core.producesL
  let consumes ← sliceToSet "consumes" sig m.core.consumesL
  return (produces, consumes)

/-- `dataRegistry.Validate`: first sighting of a signature registers the
key; the same key revalidates silently; a different key with the same
signature is a clash. -/
def registryValidate (reg : List (DataKeySig × DataKey)) (k : DataKey) :
    Except ModzError (List (DataKeySig × DataKey)) :=
  match alookup reg k.sig with
  | some existing =>
    if existing = k then .ok reg
    else .error (.signatureClash k.sig existing k)
  | none => .ok (aset reg k.sig k)

/-- The produced-contracts loop of `assembly.install` (lines 130-138 of
assembly.go): for each declared produced key, validate it against the
registry and reject a second declared producer; on success record this
module as the key's producer.  An error mid-loop returns the state as
mutated so far (Go performs these writes in place before returning). -/
def installProduces (sig : ModuleSig) :
    List DataKey → AssemblyState → AssemblyState × Option ModzError
  | [], s => (s, none)
  | k :: rest, s =>
    match registryValidate s.registry k with
    | .error e => (s, some e)
    | .ok reg' =>
      let s' := { s with registry := reg' }
      match alookup s'.producers k with
      | some existing => (s', some (.duplicateProducer k existing sig))
      | none =>
        installProduces sig rest
          { s' with producers := aset s'.producers k sig }

/-- The consumed-contracts loop of `assembly.install` (lines 140-149):
validate each consumed key; if the value store already holds it, resolve the
dependency on the binding under construction, otherwise register the binding
in the waiter index. -/
def installConsumes (sig : ModuleSig) :
    List DataKey → AssemblyState → Binding →
      AssemblyState × Binding × Option ModzError
  | [], s, b => (s, b, none)
  | k :: rest, s, b =>
    match registryValidate s.registry k with
    | .error e => (s, b, some e)
    | .ok reg' =>
      let s' := { s with registry := reg' }
      match alookup s'.data k with
      | none =>
        let wl := (alookup s'.waiters k).getD []
        installConsumes sig rest
          { s' with waiters := aset s'.waiters k (wl ++ [sig]) } b
      | some _ =>
        installConsumes sig rest s' { b with waiting := b.waiting.erase k }

/-- `assembly.install` (assembly.go lines 114-155): add a module into the
assembly.  `mOpt = none` models a nil Module argument. -/
def install (mOpt : Option GoModule) (parent : Option ModuleSig)
    (s : AssemblyState) : AssemblyState × Option ModzError :=
  match mOpt with
  | none => (s, some .installNil)
  | some m =>
    let sig := newModuleSignature m
    if (alookup s.bindings sig).isSome then (s, some (.alreadyAdded sig))
    else
      match discoverModule sig m with
      | .error e => (s, some e)
      | .ok (produces, consumes) =>
        let b : Binding :=
          { moduleSignature := sig, mod := m, parent := parent
            produces := produces, consumes := consumes
            waiting := consumes, produced := []
            inProgress := false, configured := false }
        match installProduces sig produces s with
        | (s', some e) => (s', some e)
        | (s', none) =>
          match installConsumes sig consumes s' b with
          | (s'', _, some e) => (s'', some e)
          | (s'', b', none) =>
            let s'' :=
              if b'.waiting = [] then { s'' with ready := s''.ready ++ [sig] }
              else s''
            ({ s'' with bindings := aset s''.bindings sig b' }, none)

/-- `assembly.getDataValue` (assembly.go lines 159-170): internal store
read.  `kOpt = none` models a nil DataKey. -/
def getDataValue (kOpt : Option DataKey) (s : AssemblyState) :
    Except ModzError Value :=
  match kOpt with
  | none => .error .dataNilKey
  | some k =>
    match alookup s.data k with
    | none => .error (.noValueFound k)
    | some v => .ok v

/-- The waiter-resolution loop of `assembly.putDataValue`: for each binding
waiting on the key, remove the key from its waiting set
(`binder.resolveDependency`) and, if the waiting set became empty, append
the binding to the ready queue.  A signature with no binding is skipped (in
Go this case would mutate an orphaned binder invisible to the engine). -/
def resolveWaiters (k : DataKey) :
    List ModuleSig → AssemblyState → AssemblyState
  | [], s => s
  | sig :: rest, s =>
    match alookup s.bindings sig with
    | none => resolveWaiters k rest s
    | some b =>
      let b' := { b with waiting := b.waiting.erase k }
      let s' := { s with bindings := aset s.bindings sig b' }
      let s' :=
        if b'.waiting = [] then { s' with ready := s'.ready ++ [sig] }
        else s'
      resolveWaiters k rest s'

/-- `assembly.putDataValue` (assembly.go lines 172-195): write-once store
write; a successful write resolves every waiting binding for the key and
clears the key's waiter-index entry. -/
def putDataValue (kOpt : Option DataKey) (v : Value) (s : AssemblyState) :
    AssemblyState × Option ModzError :=
  match kOpt with
  | none => (s, some .dataNilKey)
  | some k =>
    if (alookup s.data k).isSome then (s, some (.alreadySet k))
    else
      let s' := { s with data := s.data ++ [(k, v)] }
      let wl := (alookup s'.waiters k).getD []
      if wl = [] then (s', none)
      else
        let s'' := resolveWaiters k wl s'
        ({ s'' with waiters := adel s''.waiters k }, none)

/-- `assembly.getData` (assembly.go lines 103-112): the external read; only
permitted after Build has completed successfully. -/
def assemblyGetData (kOpt : Option DataKey) (s : AssemblyState) :
    Except ModzError Value :=
  if s.buildCompleted then getDataValue kOpt s
  else .error .notBuilt

/-- Update the binding stored under a signature (mutation through the shared
`*binder` pointer in Go). -/
def updBinding (sig : ModuleSig) (f : Binding → Binding)
    (s : AssemblyState) : AssemblyState :=
  match alookup s.bindings sig with
  | none => s
  | some b => { s with bindings := aset s.bindings sig (f b) }

/-- `binder.Install` (binder.go lines 84-89): permitted only during the
module's configuration phase; delegates to `assembly.install` with this
binder as parent.  The binder is addressed by its signature; a missing
binding is a modelling artifact unreachable through the engine. -/
def binderInstall (sig : ModuleSig) (m : GoModule) (s : AssemblyState) :
    AssemblyState × Option ModzError :=
  match alookup s.bindings sig with
  | none => (s, some (.noBinding sig))
  | some b =>
    if !b.inProgress then (s, some (.phaseError "Install" sig))
    else install (some m) (some sig) s

/-- `binder.getData` (binder.go lines 91-99): permitted only in the
configuration phase; the key must be in the declared Consumes set; then
delegates to the store read.  Modules always pass non-nil keys (the keys
embedded in their scripts). -/
def binderGetData (sig : ModuleSig) (k : DataKey) (s : AssemblyState) :
    Except ModzError Value :=
  match alookup s.bindings sig with
  | none => .error (.noBinding sig)
  | some b =>
    if !b.inProgress then .error (.phaseError "getData" sig)
    else if k ∉ b.consumes then .error (.undeclaredKey sig k "Consumes")
    else getDataValue (some k) s

/-- `binder.putData` (binder.go lines 101-113): permitted only in the
configuration phase; the key must be in the declared Produces set; then
delegates to the store write and, on success, records the key in the
binding's produced set. -/
def binderPutData (sig : ModuleSig) (k : DataKey) (v : Value)
    (s : AssemblyState) : AssemblyState × Option ModzError :=
  match alookup s.bindings sig with
  | none => (s, some (.noBinding sig))
  | some b =>
    if !b.inProgress then (s, some (.phaseError "putData" sig))
    else if k ∉ b.produces then (s, some (.undeclaredKey sig k "Produces"))
    else
      match putDataValue (some k) v s with
      | (s', none) =>
        (updBinding sig (fun b' => { b' with produced := b'.produced ++ [k] })
          s', none)
      | (s', some e) => (s', some e)

/-- Execute one operation of a module's Configure script through its
binder. -/
def execOp (sig : ModuleSig) : ConfigOp → AssemblyState →
    AssemblyState × Option ModzError
  | .installM m, s => binderInstall sig m s
  | .getD k, s =>
    match binderGetData sig k s with
    | .ok _ => (s, none)
    | .error e => (s, some e)
  | .putD k v, s => binderPutData sig k v s

/-- Run a Configure script.  With `swallow = false` the module propagates
the first Binder operation error (returning it immediately, as the Module
contract requires); with `swallow = true` the module ignores all Binder
errors, runs every operation, and the script itself reports no error. -/
def runOps (sig : ModuleSig) (swallow : Bool) :
    List ConfigOp → AssemblyState → AssemblyState × Option ModzError
  | [], s => (s, none)
  | op :: rest, s =>
    match execOp sig op s with
    | (s', none) => runOps sig swallow rest s'
    | (s', some e) =>
      if swallow then runOps sig swallow rest s' else (s', some e)

/-- The result of invoking the module's Configure method: the state effect
of its script, and the error value the module returns (the propagated first
operation error, or the module's own final error). -/
def moduleConfigure (sig : ModuleSig) (m : GoModule) (s : AssemblyState) :
    AssemblyState × Option ModzError :=
  match runOps sig m.core.swallow m.ops s with
  | (s', some e) => (s', some e)
  | (s', none) => (s', m.core.finalErr)

/-- `binder.configureModule` (binder.go lines 145-168): one-shot (the
compare-and-swap on `configured`); sets `inProgress` around the module's
Configure call; afterwards, if the module reported no error, checks that
every declared produced key was actually produced. -/
def configureModule (sig : ModuleSig) (s : AssemblyState) :
    AssemblyState × Option ModzError :=
  match alookup s.bindings sig with
  | none => (s, some (.noBinding sig))
  | some b =>
    if b.configured then (s, some (.configureOnce sig))
    else
      let s := updBinding sig
        (fun b0 => { b0 with configured := true, inProgress := true }) s
      let (s', err) := moduleConfigure sig b.mod s
      let s' := updBinding sig (fun b0 => { b0 with inProgress := false }) s'
      match err with
      | some e => (s', some e)
      | none =>
        match alookup s'.bindings sig with
        | none => (s', none)
        | some b' =>
          let missing := b'.produces.filter (fun k => k ∉ b'.produced)
          if missing = [] then (s', none)
          else (s', some (.notProduced sig missing))

/-- The pop-and-configure loop of `assembly.Build` (assembly.go lines
76-86), with explicit fuel: pop the front of the ready queue and configure
it, until the queue is empty or a configuration call errors.  `none` means
the fuel ran out before the loop finished. -/
def buildLoop : Nat → AssemblyState →
    Option (AssemblyState × Option ModzError)
  | 0, _ => none
  | fuel + 1, s =>
    match s.ready with
    | [] => some (s, none)
    | sig :: rest =>
      let s := { s with ready := rest }
      match configureModule sig s with
      | (s', none) => buildLoop fuel s'
      | (s', some e) => some (s', some e)

/-- `assembly.Build` (assembly.go lines 72-99): one-shot via the atomic
`built` flag; drains the ready queue; after the drain, a non-empty waiter
index is a build-incomplete error naming the unmet keys; on success the
`buildCompleted` flag is set, unlocking external reads. -/
def Build (fuel : Nat) (s : AssemblyState) :
    Option (AssemblyState × Option ModzError) :=
  if s.built then some (s, some .buildTwice)
  else
    match buildLoop fuel { s with built := true } with
    | none => none
    | some (s', some e) => some (s', some e)
    | some (s', none) =>
      if s'.waiters = [] then
        some ({ s' with buildCompleted := true }, none)
      else
        some (s', some (.buildIncomplete (s'.waiters.map Prod.fst)))

/-- The installation loop of `NewAssembly`: install each module in order,
aborting on the first error. -/
def installAll : List GoModule → AssemblyState → Except ModzError AssemblyState
  | [], s => .ok s
  | m :: rest, s =>
    match install (some m) none s with
    | (_, some e) => .error e
    | (s', none) => installAll rest s'

/-- `NewAssembly` (assembly.go lines 206-222): build an engine from an
initial module list; any installation error aborts construction. -/
def NewAssembly (modules : List GoModule) : Except ModzError AssemblyState :=
  installAll modules emptyAssembly

/-!
The error-tracking binder (`Tracked` operations below).

Modelled from the spec: the binder revision that records the first error of
any Binder operation, exposes it via GetConfigurationError, answers every
later operation with a fail-fast "operation context is already invalid"
error, and wraps the error configureModule returns in a ConfigurationError
carrying the module name and the failing operation, is exercised by
binder_test.go (GetConfigurationError, ConfigurationError.ModuleName,
TestBinder_failFastBehavior) and declared by errors.go
(ConfigurationError, newFailFastError), but its implementation file is not
part of the sources.  The definitions below follow the spec's words: "The
engine additionally tracks and exposes the first error encountered by any
Binder operation during the call, independent of what the module itself
returns ...; all operations invoked after a recorded error continue to
execute (no short-circuiting of the module's own code) but return that the
operation context is already invalid", and "the first error anywhere during
a Build ... is returned ... wrapped with module/operation context."
-/

/-- Modelled from the spec: engine state extended with the per-binder
record of the first error encountered by a Binder operation during the
configuration call (operation name and underlying error). -/
structure TrackedState where
  base : AssemblyState
  cfgErrs : List (ModuleSig × (String × ModzError))

/-- Modelled from the spec: run one Binder operation under error tracking.
If an error is already recorded for this binder, the operation is not
performed and returns the fail-fast "context already invalid" error; an
error from a fresh operation is recorded as the first error. -/
def trackedExec (sig : ModuleSig) (opName : String)
    (runBase : AssemblyState → AssemblyState × Option ModzError)
    (ts : TrackedState) : TrackedState × Option ModzError :=
  match alookup ts.cfgErrs sig with
  | some (_, first) => (ts, some (.failFast opName first))
  | none =>
    match runBase ts.base with
    | (s', none) => ({ ts with base := s' }, none)
    | (s', some e) =>
      ({ base := s', cfgErrs := aset ts.cfgErrs sig (opName, e) }, some e)

/-- Modelled from the spec: one Configure-script operation under error
tracking. -/
def trackedExecOp (sig : ModuleSig) : ConfigOp → TrackedState →
    TrackedState × Option ModzError
  | .installM m, ts => trackedExec sig "Install" (binderInstall sig m) ts
  | .getD k, ts =>
    trackedExec sig "getData"
      (fun s =>
        match binderGetData sig k s with
        | .ok _ => (s, none)
        | .error e => (s, some e)) ts
  | .putD k v, ts => trackedExec sig "putData" (binderPutData sig k v) ts

/-- Modelled from the spec: run a Configure script under error tracking;
the module's own code is never short-circuited by the framework, so with
`swallow = true` every operation executes. -/
def trackedRunOps (sig : ModuleSig) (swallow : Bool) :
    List ConfigOp → TrackedState → TrackedState × Option ModzError
  | [], ts => (ts, none)
  | op :: rest, ts =>
    match trackedExecOp sig op ts with
    | (ts', none) => trackedRunOps sig swallow rest ts'
    | (ts', some e) =>
      if swallow then trackedRunOps sig swallow rest ts' else (ts', some e)

/-- Modelled from the spec: the module's Configure call under error
tracking. -/
def trackedModuleConfigure (sig : ModuleSig) (m : GoModule)
    (ts : TrackedState) : TrackedState × Option ModzError :=
  match trackedRunOps sig m.core.swallow m.ops ts with
  | (ts', some e) => (ts', some e)
  | (ts', none) => (ts', m.core.finalErr)

/-- Modelled from the spec: configureModule under error tracking.  The
recorded first operation error takes precedence over whatever the module
itself returned; a module-returned error, or a declared-but-not-produced
failure, is recorded too; every error the call returns is wrapped in a
ConfigurationError carrying the module name and the failing operation. -/
def trackedConfigureModule (sig : ModuleSig) (ts : TrackedState) :
    TrackedState × Option ModzError :=
  match alookup ts.base.bindings sig with
  | none => (ts, some (.noBinding sig))
  | some b =>
    if b.configured then (ts, some (.configureOnce sig))
    else
      let ts := { ts with
        base := updBinding sig
          (fun b0 => { b0 with configured := true, inProgress := true })
          ts.base }
      let (ts', err) := trackedModuleConfigure sig b.mod ts
      let ts' := { ts' with
        base := updBinding sig (fun b0 => { b0 with inProgress := false })
          ts'.base }
      match alookup ts'.cfgErrs sig with
      | some (op, first) =>
        (ts', some (.configurationError sig.name op first))
      | none =>
        match err with
        | some e =>
          ({ ts' with cfgErrs := aset ts'.cfgErrs sig ("Configure", e) },
            some (.configurationError sig.name "Configure" e))
        | none =>
          match alookup ts'.base.bindings sig with
          | none => (ts', none)
          | some b' =>
            let missing := b'.produces.filter (fun k => k ∉ b'.produced)
            if missing = [] then (ts', none)
            else
              let e := ModzError.notProduced sig missing
              ({ ts' with
                  cfgErrs := aset ts'.cfgErrs sig ("Configure", e) },
                some (.configurationError sig.name "Configure" e))

/-- Modelled from the spec: GetConfigurationError — expose the first error
encountered by any Binder operation during the configuration call,
independent of what the module itself returned. -/
def getConfigurationError (sig : ModuleSig) (ts : TrackedState) :
    Option ModzError :=
  (alookup ts.cfgErrs sig).map Prod.snd

/-- The Binder operation name used in error context (Install / getData /
putData). -/
def ConfigOp.operationName : ConfigOp → String
  | .installM _ => "Install"
  | .getD _ => "getData"
  | .putD _ _ => "putData"

/-- A binding is unblocked by a write to key `k` when erasing `k` from its
waiting set leaves the set empty. -/
def unblockedBy (k : DataKey) (s : AssemblyState) (sig : ModuleSig) : Bool :=
  match alookup s.bindings sig with
  | some b => (b.waiting.erase k).isEmpty
  | none => false

/-- One atomic state transition of the engine: an installation, a store
write, a configuration call, or a Build call. -/
inductive StepR : AssemblyState → AssemblyState → Prop where
  | installS (mOpt : Option GoModule) (p : Option ModuleSig)
      (s s' : AssemblyState) (e : Option ModzError) :
      install mOpt p s = (s', e) → StepR s s'
  | putS (kOpt : Option DataKey) (v : Value) (s s' : AssemblyState)
      (e : Option ModzError) :
      putDataValue kOpt v s = (s', e) → StepR s s'
  | bInstallS (sig : ModuleSig) (m : GoModule) (s s' : AssemblyState)
      (e : Option ModzError) :
      binderInstall sig m s = (s', e) → StepR s s'
  | bPutS (sig : ModuleSig) (k : DataKey) (v : Value) (s s' : AssemblyState)
      (e : Option ModzError) :
      binderPutData sig k v s = (s', e) → StepR s s'
  | configS (sig : ModuleSig) (s s' : AssemblyState) (e : Option ModzError) :
      configureModule sig s = (s', e) → StepR s s'
  | buildS (fuel : Nat) (s s' : AssemblyState) (e : Option ModzError) :
      Build fuel s = some (s', e) → StepR s s'

/-- A state is reachable when it arises from a `NewAssembly` call followed
by any sequence of engine transitions. -/
def Reachable (s : AssemblyState) : Prop :=
  ∃ mods s₀, NewAssembly mods = .ok s₀ ∧ Relation.ReflTransGen StepR s₀ s

/-- The binding invariant of claim C10: each binding's produced set is
contained in its declared Produces set, and every produced key has a value
in the store. -/
def ProducedInv (s : AssemblyState) : Prop :=
  ∀ sig b, alookup s.bindings sig = some b →
    (∀ k, k ∈ b.produced → k ∈ b.produces) ∧
    (∀ k, k ∈ b.produced → (alookup s.data k).isSome)

/-- Frame facts common to the engine's internal operations: the one-shot
Build flags are untouched and the value store only grows (written values
are never removed or overwritten). -/
def Pres (s s' : AssemblyState) : Prop :=
  s'.buildCompleted = s.buildCompleted ∧ s'.built = s.built ∧
  ∀ k v, alookup s.data k = some v → alookup s'.data k = some v

/-- Frame fact on bindings: every binding present before an operation is
still present, with the same identity, declared sets and phase flags (its
waiting and produced sets may change). -/
def BFrame (s s' : AssemblyState) : Prop :=
  ∀ x b, alookup s.bindings x = some b → ∃ b',
    alookup s'.bindings x = some b' ∧
    b'.moduleSignature = b.moduleSignature ∧ b'.mod = b.mod ∧
    b'.produces = b.produces ∧ b'.consumes = b.consumes ∧
    b'.inProgress = b.inProgress ∧ b'.configured = b.configured

/-! Concrete fixtures used by witnesses, counterexamples and scenario
conjuncts. -/

/-- A data key named X. -/
def keyX : DataKey := ⟨⟨"pkgdata", "X"⟩, 1⟩

/-- A data key named Y. -/
def keyY : DataKey := ⟨⟨"pkgdata", "Y"⟩, 2⟩

/-- Module A: produces X and writes 42 to it. -/
def modA : GoModule := .mk ⟨"app", "A", [keyX], [], false, false, none⟩
  [.putD keyX 42]

/-- Module B: consumes X and reads it. -/
def modB : GoModule := .mk ⟨"app", "B", [], [keyX], false, false, none⟩
  [.getD keyX]

/-- Module C: produces X, consumes Y (half of a circular pair). -/
def modC : GoModule := .mk ⟨"app", "C", [keyX], [keyY], false, false, none⟩
  [.putD keyX 1]

/-- Module D: produces Y, consumes X (other half of the circular pair). -/
def modD : GoModule := .mk ⟨"app", "D", [keyY], [keyX], false, false, none⟩
  [.putD keyY 2]

/-- Module E: consumes X, which no module produces. -/
def modE : GoModule := .mk ⟨"app", "E", [], [keyX], false, false, none⟩ []

/-- Module F: declares it produces X but never writes it and returns nil. -/
def modF : GoModule := .mk ⟨"app", "F", [keyX], [], false, false, none⟩ []

/-- Module G: consumes X and Y. -/
def modG : GoModule :=
  .mk ⟨"app", "G", [], [keyX, keyY], false, false, none⟩ []

/-- Module S: declares the repeatable (Singleton) capability. -/
def modS : GoModule := .mk ⟨"app", "S", [], [], true, false, none⟩ []

/-- Module P1: declares it produces X. -/
def modP1 : GoModule := .mk ⟨"app", "P1", [keyX], [], false, false, none⟩
  [.putD keyX 7]

/-- Module P2: declares it produces Y and X (X clashing with P1). -/
def modP2 : GoModule :=
  .mk ⟨"app", "P2", [keyY, keyX], [], false, false, none⟩ []

/-- Module T: produces X, swallows Binder errors, and writes X three times
(the second and third writes fail). -/
def modT : GoModule := .mk ⟨"app", "T", [keyX], [], false, true, none⟩
  [.putD keyX 1, .putD keyX 2, .putD keyX 3]

/-- The assembly holding only the singleton module S. -/
def sS : AssemblyState := (install (some modS) none emptyAssembly).1

/-- The assembly holding only the producer P1. -/
def sP : AssemblyState := (install (some modP1) none emptyAssembly).1

/-- The assembly holding only the consumer E. -/
def sE : AssemblyState := (install (some modE) none emptyAssembly).1

/-- The assembly holding the consumers E (waiting on X) and G (waiting on X
and Y), in that install order. -/
def sW : AssemblyState := (install (some modG) none sE).1

/-- The signature of module E. -/
def sigE : ModuleSig := ⟨"app", "E"⟩

/-- The signature of module G. -/
def sigG : ModuleSig := ⟨"app", "G"⟩

/-- The assembly holding the circular pair C (produces X, consumes Y) and
D (produces Y, consumes X). -/
def sCD : AssemblyState :=
  (install (some modD) none (install (some modC) none emptyAssembly).1).1

/-- The assembly holding only the error-swallowing module T. -/
def sT : AssemblyState := (install (some modT) none emptyAssembly).1

/-- The signature of module T. -/
def sigT : ModuleSig := ⟨"app", "T"⟩

/-- The assembly holding only module F (declares X, never writes it). -/
def sF : AssemblyState := (install (some modF) none emptyAssembly).1

/-- The signature of module F. -/
def sigF : ModuleSig := ⟨"app", "F"⟩

/-- The assembly holding only module A (produces X and writes it). -/
def sA : AssemblyState := (install (some modA) none emptyAssembly).1

/-- An assembly whose store already holds a value for X although no Build
has completed. -/
def sVal : AssemblyState := (putDataValue (some keyX) 5 emptyAssembly).1

/-- The assembly of T with T's binding forced into the in-progress phase
(as configureModule does around the Configure call). -/
def sIP : AssemblyState :=
  updBinding sigT (fun b => { b with inProgress := true }) sT

/-- The assembly of T with T's binding already configured. -/
def sCfg : AssemblyState :=
  updBinding sigT (fun b => { b with configured := true }) sT

/-- The in-progress assembly of T with a value already stored for X. -/
def sIPX : AssemblyState := (putDataValue (some keyX) 9 sIP).1

/-- A tracked state for T's configuration call with no error recorded
yet. -/
def tsFresh : TrackedState := ⟨sIPX, []⟩

/-- A tracked state for T's configuration call in which a first error (the
write-once violation on X) has already been recorded. -/
def tsRec : TrackedState :=
  ⟨sIPX, [(sigT, ("putData", .alreadySet keyX))]⟩

/-! Association-list lemmas. -/

section AssocLemmas

variable {α : Type} {β : Type} [DecidableEq α]

@[simp]
theorem alookup_nil (key : α) : alookup ([] : List (α × β)) key = none := rfl

@[simp]
theorem alookup_cons (k : α) (v : β) (rest : List (α × β)) (key : α) :
    alookup ((k, v) :: rest) key =
      if k = key then some v else alookup rest key := rfl

theorem alookup_aset_self (l : List (α × β)) (key : α) (val : β) :
    alookup (aset l key val) key = some val := by
  induction l with
  | nil => simp [aset]
  | cons h t ih =>
    obtain ⟨k, v⟩ := h
    by_cases hk : k = key <;> simp [aset, hk, ih]

theorem alookup_aset_ne (l : List (α × β)) (key key' : α) (val : β)
    (h : key ≠ key') : alookup (aset l key val) key' = alookup l key' := by
  induction l with
  | nil => simp [aset, alookup, h]
  | cons hd t ih =>
    obtain ⟨k, v⟩ := hd
    by_cases hk : k = key
    · subst hk
      simp [aset, alookup, h]
    · simp only [aset, if_neg hk, alookup_cons]
      by_cases hk' : k = key' <;> simp [hk', ih]

theorem alookup_of_not_mem_keys (l : List (α × β)) (key : α)
    (h : key ∉ l.map Prod.fst) : alookup l key = none := by
  induction l with
  | nil => rfl
  | cons hd t ih =>
    obtain ⟨k, v⟩ := hd
    simp only [List.map_cons, List.mem_cons, not_or] at h
    simp [alookup, Ne.symm h.1, ih h.2]

theorem alookup_adel_self (l : List (α × β)) (key : α)
    (hnd : (l.map Prod.fst).Nodup) : alookup (adel l key) key = none := by
  induction l with
  | nil => simp [adel]
  | cons hd t ih =>
    obtain ⟨k, v⟩ := hd
    simp only [List.map_cons, List.nodup_cons] at hnd
    by_cases hk : k = key
    · subst hk
      simp only [adel, if_pos rfl]
      exact alookup_of_not_mem_keys t k hnd.1
    · simp [adel, hk, ih hnd.2]

theorem alookup_adel_ne (l : List (α × β)) (key key' : α) (h : key ≠ key') :
    alookup (adel l key) key' = alookup l key' := by
  induction l with
  | nil => simp [adel]
  | cons hd t ih =>
    obtain ⟨k, v⟩ := hd
    by_cases hk : k = key
    · subst hk
      simp [adel, alookup, h]
    · simp only [adel, if_neg hk, alookup_cons]
      by_cases hk' : k = key' <;> simp [hk', ih]

theorem alookup_append_some (l l' : List (α × β)) (key : α) (val : β)
    (h : alookup l key = some val) : alookup (l ++ l') key = some val := by
  induction l with
  | nil => simp at h
  | cons hd t ih =>
    obtain ⟨k, v⟩ := hd
    by_cases hk : k = key
    · simpa [alookup, hk] using h
    · simp only [alookup_cons, if_neg hk] at h
      simpa [alookup, hk] using ih h

end AssocLemmas

theorem updBinding_lookup_self (sig : ModuleSig) (f : Binding → Binding)
    (s : AssemblyState) (b : Binding) (hb : alookup s.bindings sig = some b) :
    alookup (updBinding sig f s).bindings sig = some (f b) := by
  simp only [updBinding, hb]
  exact alookup_aset_self _ _ _

theorem updBinding_lookup_ne (sig x : ModuleSig) (f : Binding → Binding)
    (s : AssemblyState) (hx : sig ≠ x) :
    alookup (updBinding sig f s).bindings x = alookup s.bindings x := by
  simp only [updBinding]
  split
  · rfl
  · exact alookup_aset_ne _ _ _ _ hx

theorem updBinding_lookup_none (sig : ModuleSig) (f : Binding → Binding)
    (s : AssemblyState) (hb : alookup s.bindings sig = none) :
    updBinding sig f s = s := by
  simp [updBinding, hb]

/-! Frame lemmas: every internal operation leaves the Build flags alone and
only ever extends the value store. -/

theorem pres_refl (s : AssemblyState) : Pres s s := ⟨rfl, rfl, fun _ _ h => h⟩

theorem pres_trans {s s' s'' : AssemblyState} (h1 : Pres s s')
    (h2 : Pres s' s'') : Pres s s'' :=
  ⟨h2.1.trans h1.1, h2.2.1.trans h1.2.1,
    fun k v h => h2.2.2 k v (h1.2.2 k v h)⟩

theorem pres_fields {s s' : AssemblyState} (h1 : s'.buildCompleted = s.buildCompleted)
    (h2 : s'.built = s.built) (h3 : s'.data = s.data) : Pres s s' :=
  ⟨h1, h2, fun k v h => by rw [h3]; exact h⟩

theorem pres_installProduces (sig : ModuleSig) (ks : List DataKey)
    (s : AssemblyState) : Pres s (installProduces sig ks s).1 := by
  induction ks generalizing s with
  | nil => exact pres_refl s
  | cons k rest ih =>
    simp only [installProduces]
    split
    · exact pres_refl s
    · split
      · exact pres_fields rfl rfl rfl
      · exact pres_trans (pres_fields rfl rfl rfl) (ih _)

theorem pres_installConsumes (sig : ModuleSig) (ks : List DataKey)
    (s : AssemblyState) (b : Binding) :
    Pres s (installConsumes sig ks s b).1 := by
  induction ks generalizing s b with
  | nil => exact pres_refl s
  | cons k rest ih =>
    simp only [installConsumes]
    split
    · exact pres_refl s
    · split
      · exact pres_trans (pres_fields rfl rfl rfl) (ih _ _)
      · exact pres_trans (pres_fields rfl rfl rfl) (ih _ _)

theorem pres_install (mOpt : Option GoModule) (p : Option ModuleSig)
    (s : AssemblyState) : Pres s (install mOpt p s).1 := by
  cases mOpt with
  | none => exact pres_refl s
  | some m =>
    simp only [install]
    split
    · exact pres_refl s
    · split
      · exact pres_refl s
      · rename_i prods cons hdisc
        split
        · rename_i s' e heq
          have h1 := pres_installProduces (newModuleSignature m) prods s
          rw [heq] at h1
          exact h1
        · rename_i s' heq
          have h1 := pres_installProduces (newModuleSignature m) prods s
          rw [heq] at h1
          split
          · rename_i s'' b₂ e heq2
            have h2 := pres_installConsumes (newModuleSignature m) cons s'
              { moduleSignature := newModuleSignature m, mod := m, parent := p
                produces := prods, consumes := cons, waiting := cons
                produced := [], inProgress := false, configured := false }
            rw [heq2] at h2
            exact pres_trans h1 h2
          · rename_i s'' b' heq2
            have h2 := pres_installConsumes (newModuleSignature m) cons s'
              { moduleSignature := newModuleSignature m, mod := m, parent := p
                produces := prods, consumes := cons, waiting := cons
                produced := [], inProgress := false, configured := false }
            rw [heq2] at h2
            refine pres_trans h1 (pres_trans h2 ?_)
            split <;> exact pres_fields rfl rfl rfl

theorem pres_resolveWaiters (k : DataKey) (wl : List ModuleSig)
    (s : AssemblyState) : Pres s (resolveWaiters k wl s) := by
  induction wl generalizing s with
  | nil => exact pres_refl s
  | cons sig rest ih =>
    simp only [resolveWaiters]
    split
    · exact ih s
    · split
      · exact pres_trans (pres_fields rfl rfl rfl) (ih _)
      · exact pres_trans (pres_fields rfl rfl rfl) (ih _)

theorem pres_putDataValue (kOpt : Option DataKey) (v : Value)
    (s : AssemblyState) : Pres s (putDataValue kOpt v s).1 := by
  cases kOpt with
  | none => exact pres_refl s
  | some k =>
    simp only [putDataValue]
    split
    · exact pres_refl s
    · have hgrow : Pres s { s with data := s.data ++ [(k, v)] } :=
        ⟨rfl, rfl, fun k' v' h => alookup_append_some _ _ _ _ h⟩
      split
      · exact hgrow
      · exact pres_trans hgrow
          (pres_trans (pres_resolveWaiters k _ _) (pres_fields rfl rfl rfl))

theorem pres_updBinding (sig : ModuleSig) (f : Binding → Binding)
    (s : AssemblyState) : Pres s (updBinding sig f s) := by
  simp only [updBinding]
  split
  · exact pres_refl s
  · exact pres_fields rfl rfl rfl

theorem pres_binderInstall (sig : ModuleSig) (m : GoModule)
    (s : AssemblyState) : Pres s (binderInstall sig m s).1 := by
  simp only [binderInstall]
  split
  · exact pres_refl s
  · split
    · exact pres_refl s
    · exact pres_install _ _ s

theorem pres_binderPutData (sig : ModuleSig) (k : DataKey) (v : Value)
    (s : AssemblyState) : Pres s (binderPutData sig k v s).1 := by
  simp only [binderPutData]
  split
  · exact pres_refl s
  · split
    · exact pres_refl s
    · split
      · exact pres_refl s
      · split
        · rename_i s' heq
          have h1 := pres_putDataValue (some k) v s
          rw [heq] at h1
          exact pres_trans h1 (pres_updBinding sig _ s')
        · rename_i s' e heq
          have h1 := pres_putDataValue (some k) v s
          rw [heq] at h1
          exact h1

theorem pres_execOp (sig : ModuleSig) (op : ConfigOp) (s : AssemblyState) :
    Pres s (execOp sig op s).1 := by
  cases op with
  | installM m => exact pres_binderInstall sig m s
  | getD k =>
    simp only [execOp]
    cases binderGetData sig k s <;> exact pres_refl s
  | putD k v => exact pres_binderPutData sig k v s

theorem pres_runOps (sig : ModuleSig) (sw : Bool) (ops : List ConfigOp)
    (s : AssemblyState) : Pres s (runOps sig sw ops s).1 := by
  induction ops generalizing s with
  | nil => exact pres_refl s
  | cons op rest ih =>
    simp only [runOps]
    cases hop : execOp sig op s with
    | mk s' e =>
      have h1 := pres_execOp sig op s
      rw [hop] at h1
      cases e with
      | none => exact pres_trans h1 (ih s')
      | some ee =>
        cases sw with
        | true => exact pres_trans h1 (ih s')
        | false => exact h1

theorem pres_moduleConfigure (sig : ModuleSig) (m : GoModule)
    (s : AssemblyState) : Pres s (moduleConfigure sig m s).1 := by
  simp only [moduleConfigure]
  cases hro : runOps sig m.core.swallow m.ops s with
  | mk s' e =>
    have h1 := pres_runOps sig m.core.swallow m.ops s
    rw [hro] at h1
    cases e <;> exact h1

theorem pres_configureModule (sig : ModuleSig) (s : AssemblyState) :
    Pres s (configureModule sig s).1 := by
  simp only [configureModule]
  split
  · exact pres_refl s
  · rename_i b hb
    split
    · exact pres_refl s
    · cases hmc : moduleConfigure sig b.mod
        (updBinding sig (fun b0 => { b0 with configured := true, inProgress := true }) s) with
      | mk s' e =>
        have h1 : Pres s s' := by
          refine pres_trans
            (pres_updBinding sig
              (fun b0 => { b0 with configured := true, inProgress := true }) s) ?_
          have := pres_moduleConfigure sig b.mod
            (updBinding sig (fun b0 => { b0 with configured := true, inProgress := true }) s)
          rw [hmc] at this
          exact this
        have h2 : Pres s (updBinding sig (fun b0 => { b0 with inProgress := false }) s') :=
          pres_trans h1 (pres_updBinding sig _ s')
        cases e with
        | some ee => exact h2
        | none =>
          simp only
          split
          · exact h2
          · split <;> exact h2

theorem bframe_refl (s : AssemblyState) : BFrame s s :=
  fun _ b h => ⟨b, h, rfl, rfl, rfl, rfl, rfl, rfl⟩

theorem bframe_trans {s s' s'' : AssemblyState} (h1 : BFrame s s')
    (h2 : BFrame s' s'') : BFrame s s'' := by
  intro x b hb
  obtain ⟨b', hb', e1, e2, e3, e4, e5, e6⟩ := h1 x b hb
  obtain ⟨b'', hb'', f1, f2, f3, f4, f5, f6⟩ := h2 x b' hb'
  exact ⟨b'', hb'', f1.trans e1, f2.trans e2, f3.trans e3, f4.trans e4,
    f5.trans e5, f6.trans e6⟩

theorem bindings_installProduces (sig : ModuleSig) (ks : List DataKey)
    (s : AssemblyState) : (installProduces sig ks s).1.bindings = s.bindings := by
  induction ks generalizing s with
  | nil => rfl
  | cons k rest ih =>
    simp only [installProduces]
    split
    · rfl
    · split
      · rfl
      · exact ih _

theorem bindings_installConsumes (sig : ModuleSig) (ks : List DataKey)
    (s : AssemblyState) (b : Binding) :
    (installConsumes sig ks s b).1.bindings = s.bindings := by
  induction ks generalizing s b with
  | nil => rfl
  | cons k rest ih =>
    simp only [installConsumes]
    split
    · rfl
    · split
      · exact ih _ _
      · exact ih _ _

theorem bframe_install (mOpt : Option GoModule) (p : Option ModuleSig)
    (s : AssemblyState) : BFrame s (install mOpt p s).1 := by
  cases mOpt with
  | none => exact bframe_refl s
  | some m =>
    simp only [install]
    split
    · exact bframe_refl s
    · rename_i hfresh
      split
      · exact bframe_refl s
      · rename_i prods cons hdisc
        split
        · rename_i s' e heq
          intro x b hb
          have : s'.bindings = s.bindings := by
            have := bindings_installProduces (newModuleSignature m) prods s
            rw [heq] at this
            exact this
          exact ⟨b, by rw [this]; exact hb, rfl, rfl, rfl, rfl, rfl, rfl⟩
        · rename_i s' heq
          have hbs1 : s'.bindings = s.bindings := by
            have := bindings_installProduces (newModuleSignature m) prods s
            rw [heq] at this
            exact this
          split
          · rename_i s'' b₂ e heq2
            intro x b hb
            have hbs2 : s''.bindings = s'.bindings := by
              have := bindings_installConsumes (newModuleSignature m) cons s'
                { moduleSignature := newModuleSignature m, mod := m, parent := p
                  produces := prods, consumes := cons, waiting := cons
                  produced := [], inProgress := false, configured := false }
              rw [heq2] at this
              exact this
            exact ⟨b, by rw [hbs2, hbs1]; exact hb, rfl, rfl, rfl, rfl, rfl, rfl⟩
          · rename_i s'' b' heq2
            intro x b hb
            have hbs2 : s''.bindings = s'.bindings := by
              have := bindings_installConsumes (newModuleSignature m) cons s'
                { moduleSignature := newModuleSignature m, mod := m, parent := p
                  produces := prods, consumes := cons, waiting := cons
                  produced := [], inProgress := false, configured := false }
              rw [heq2] at this
              exact this
            have hxne : newModuleSignature m ≠ x := by
              intro hcontra
              rw [hcontra] at hfresh
              rw [hb] at hfresh
              exact hfresh rfl
            refine ⟨b, ?_, rfl, rfl, rfl, rfl, rfl, rfl⟩
            have hready : (if b'.waiting = [] then
                { s'' with ready := s''.ready ++ [newModuleSignature m] }
                else s'').bindings = s''.bindings := by
              split <;> rfl
            simp only [hready]
            rw [alookup_aset_ne _ _ _ _ hxne, hbs2, hbs1]
            exact hb

theorem bframe_resolveWaiters (k : DataKey) (wl : List ModuleSig)
    (s : AssemblyState) : BFrame s (resolveWaiters k wl s) := by
  induction wl generalizing s with
  | nil => exact bframe_refl s
  | cons sig rest ih =>
    simp only [resolveWaiters]
    split
    · exact ih s
    · rename_i b₀ hb₀
      have hstep : ∀ s₂ : AssemblyState,
          s₂.bindings = aset s.bindings sig { b₀ with waiting := b₀.waiting.erase k } →
          BFrame s s₂ := by
        intro s₂ hs₂ x b hb
        by_cases hx : sig = x
        · subst hx
          rw [hb₀] at hb
          injection hb with hbb
          subst hbb
          exact ⟨{ b₀ with waiting := b₀.waiting.erase k },
            by rw [hs₂]; exact alookup_aset_self _ _ _,
            rfl, rfl, rfl, rfl, rfl, rfl⟩
        · exact ⟨b, by rw [hs₂, alookup_aset_ne _ _ _ _ hx]; exact hb,
            rfl, rfl, rfl, rfl, rfl, rfl⟩
      split
      · exact bframe_trans (hstep _ rfl) (ih _)
      · exact bframe_trans (hstep _ rfl) (ih _)

theorem bframe_putDataValue (kOpt : Option DataKey) (v : Value)
    (s : AssemblyState) : BFrame s (putDataValue kOpt v s).1 := by
  cases kOpt with
  | none => exact bframe_refl s
  | some k =>
    simp only [putDataValue]
    split
    · exact bframe_refl s
    · split
      · exact fun x b hb => ⟨b, hb, rfl, rfl, rfl, rfl, rfl, rfl⟩
      · have h1 : BFrame s ({ s with data := s.data ++ [(k, v)] } : AssemblyState) :=
          fun x b hb => ⟨b, hb, rfl, rfl, rfl, rfl, rfl, rfl⟩
        refine bframe_trans h1 ?_
        refine bframe_trans
          (bframe_resolveWaiters k
            ((alookup ({ s with data := s.data ++ [(k, v)] } : AssemblyState).waiters k).getD [])
            ({ s with data := s.data ++ [(k, v)] } : AssemblyState)) ?_
        exact fun x b hb => ⟨b, hb, rfl, rfl, rfl, rfl, rfl, rfl⟩

theorem bframe_updBinding_of (sig : ModuleSig) (f : Binding → Binding)
    (hf : ∀ b, (f b).moduleSignature = b.moduleSignature ∧ (f b).mod = b.mod ∧
      (f b).produces = b.produces ∧ (f b).consumes = b.consumes ∧
      (f b).inProgress = b.inProgress ∧ (f b).configured = b.configured)
    (s : AssemblyState) : BFrame s (updBinding sig f s) := by
  simp only [updBinding]
  split
  · exact bframe_refl s
  · rename_i b₀ hb₀
    intro x b hb
    by_cases hx : sig = x
    · subst hx
      rw [hb₀] at hb
      injection hb with hbb
      subst hbb
      obtain ⟨e1, e2, e3, e4, e5, e6⟩ := hf b₀
      exact ⟨f b₀, by simp only; exact alookup_aset_self _ _ _, e1, e2, e3,
        e4, e5, e6⟩
    · refine ⟨b, ?_, rfl, rfl, rfl, rfl, rfl, rfl⟩
      simp only
      rw [alookup_aset_ne _ _ _ _ hx]
      exact hb

theorem bframe_binderInstall (sig : ModuleSig) (m : GoModule)
    (s : AssemblyState) : BFrame s (binderInstall sig m s).1 := by
  simp only [binderInstall]
  split
  · exact bframe_refl s
  · split
    · exact bframe_refl s
    · exact bframe_install _ _ s

theorem bframe_binderPutData (sig : ModuleSig) (k : DataKey) (v : Value)
    (s : AssemblyState) : BFrame s (binderPutData sig k v s).1 := by
  simp only [binderPutData]
  split
  · exact bframe_refl s
  · split
    · exact bframe_refl s
    · split
      · exact bframe_refl s
      · split
        · rename_i s' heq
          have h1 := bframe_putDataValue (some k) v s
          rw [heq] at h1
          refine bframe_trans h1 (bframe_updBinding_of sig _ ?_ s')
          intro b
          exact ⟨rfl, rfl, rfl, rfl, rfl, rfl⟩
        · rename_i s' e heq
          have h1 := bframe_putDataValue (some k) v s
          rw [heq] at h1
          exact h1

theorem bframe_execOp (sig : ModuleSig) (op : ConfigOp) (s : AssemblyState) :
    BFrame s (execOp sig op s).1 := by
  cases op with
  | installM m => exact bframe_binderInstall sig m s
  | getD k =>
    simp only [execOp]
    cases binderGetData sig k s <;> exact bframe_refl s
  | putD k v => exact bframe_binderPutData sig k v s

theorem bframe_runOps (sig : ModuleSig) (sw : Bool) (ops : List ConfigOp)
    (s : AssemblyState) : BFrame s (runOps sig sw ops s).1 := by
  induction ops generalizing s with
  | nil => exact bframe_refl s
  | cons op rest ih =>
    simp only [runOps]
    cases hop : execOp sig op s with
    | mk s' e =>
      have h1 := bframe_execOp sig op s
      rw [hop] at h1
      cases e with
      | none => exact bframe_trans h1 (ih s')
      | some ee =>
        cases sw with
        | true => exact bframe_trans h1 (ih s')
        | false => exact h1

theorem bframe_moduleConfigure (sig : ModuleSig) (m : GoModule)
    (s : AssemblyState) : BFrame s (moduleConfigure sig m s).1 := by
  simp only [moduleConfigure]
  cases hro : runOps sig m.core.swallow m.ops s with
  | mk s' e =>
    have h1 := bframe_runOps sig m.core.swallow m.ops s
    rw [hro] at h1
    cases e <;> exact h1

theorem pres_buildLoop (fuel : Nat) (s s' : AssemblyState)
    (e : Option ModzError) (h : buildLoop fuel s = some (s', e)) :
    Pres s s' := by
  induction fuel generalizing s with
  | zero => simp [buildLoop] at h
  | succ n ih =>
    simp only [buildLoop] at h
    cases hr : s.ready with
    | nil =>
      rw [hr] at h
      simp at h
      obtain ⟨h1, h2⟩ := h
      subst h1
      exact pres_refl s
    | cons sig rest =>
      rw [hr] at h
      simp only at h
      cases hcm : configureModule sig { s with ready := rest } with
      | mk s₁ e₁ =>
        rw [hcm] at h
        have hstep : Pres s s₁ := by
          refine pres_trans (⟨rfl, rfl, fun _ _ hh => hh⟩ :
            Pres s { s with ready := rest }) ?_
          have := pres_configureModule sig { s with ready := rest }
          rw [hcm] at this
          exact this
        cases e₁ with
        | none => exact pres_trans hstep (ih s₁ h)
        | some ee =>
          simp at h
          obtain ⟨h1, h2⟩ := h
          subst h1
          exact hstep

theorem sliceToSet_ok {w : String} {sig : ModuleSig} {l l' : List DataKey}
    (h : sliceToSet w sig l = .ok l') : l' = l ∧ l.Nodup := by
  simp only [sliceToSet] at h
  split at h
  · injection h with h
    exact ⟨h.symm, by assumption⟩
  · simp at h

theorem discoverModule_ok {sig : ModuleSig} {m : GoModule}
    {lp lc : List DataKey}
    (h : discoverModule sig m = .ok (lp, lc)) :
    lp = m.core.producesL ∧ lc = m.core.consumesL ∧
    m.core.producesL.Nodup ∧ m.core.consumesL.Nodup := by
  simp only [discoverModule, bind, Except.bind] at h
  cases hp : sliceToSet "produces" sig m.core.producesL with
  | error e => rw [hp] at h; simp at h
  | ok lp' =>
    rw [hp] at h
    cases hc : sliceToSet "consumes" sig m.core.consumesL with
    | error e => rw [hc] at h; simp at h
    | ok lc' =>
      rw [hc] at h
      simp only [pure, Except.pure] at h
      injection h with h
      injection h with h1 h2
      obtain ⟨hp1, hp2⟩ := sliceToSet_ok hp
      obtain ⟨hc1, hc2⟩ := sliceToSet_ok hc
      subst h1
      subst h2
      exact ⟨hp1, hc1, hp2, hc2⟩

theorem discoverModule_error_shape {sig : ModuleSig} {m : GoModule}
    {e : ModzError} (h : discoverModule sig m = .error e) :
    ∃ w sg, e = .discoveryDup w sg := by
  simp only [discoverModule, bind, Except.bind] at h
  cases hp : sliceToSet "produces" sig m.core.producesL with
  | error e' =>
    rw [hp] at h
    simp only [sliceToSet] at hp
    split at hp
    · simp at hp
    · injection h with h
      injection hp with hp
      exact ⟨_, _, by rw [← h, ← hp]⟩
  | ok lp' =>
    rw [hp] at h
    cases hc : sliceToSet "consumes" sig m.core.consumesL with
    | error e' =>
      rw [hc] at h
      simp only [sliceToSet] at hc
      split at hc
      · simp at hc
      · injection h with h
        injection hc with hc
        exact ⟨_, _, by rw [← h, ← hc]⟩
    | ok lc' =>
      rw [hc] at h
      simp [pure, Except.pure] at h

theorem installProduces_dupError (sig : ModuleSig) (ks : List DataKey)
    (s s' : AssemblyState) (k : DataKey) (ex inc : ModuleSig)
    (hnd : ks.Nodup)
    (h : installProduces sig ks s = (s', some (.duplicateProducer k ex inc))) :
    inc = sig ∧ k ∈ ks ∧ alookup s.producers k = some ex ∧
    alookup s'.producers k = some ex ∧ s'.bindings = s.bindings ∧
    s'.data = s.data ∧ s'.waiters = s.waiters := by
  induction ks generalizing s with
  | nil => simp [installProduces] at h
  | cons k₀ rest ih =>
    simp only [installProduces] at h
    split at h
    · rename_i e heq
      simp only [Prod.mk.injEq] at h
      obtain ⟨h1, h2⟩ := h
      simp only [registryValidate] at heq
      split at heq
      · split at heq
        · simp at heq
        · injection heq with heq
          rw [← heq] at h2
          simp at h2
      · simp at heq
    · rename_i reg' heq
      split at h
      · rename_i ex₀ hpr
        simp only [Prod.mk.injEq, Option.some.injEq] at h
        obtain ⟨h1, h2⟩ := h
        cases h2
        subst h1
        refine ⟨rfl, by simp, ?_, ?_, rfl, rfl, rfl⟩
        · exact hpr
        · exact hpr
      · rename_i hpr
        have hnd' := hnd
        simp only [List.nodup_cons] at hnd'
        obtain ⟨hk₀, hrest⟩ := hnd'
        obtain ⟨g1, g2, g3, g4, g5, g6, g7⟩ := ih _ hrest h
        have hkne : k₀ ≠ k := by
          intro hcontra
          rw [hcontra] at hk₀
          exact hk₀ g2
        refine ⟨g1, by simp [g2], ?_, g4, g5, g6, g7⟩
        rw [← g3]
        simp only
        rw [alookup_aset_ne _ _ _ _ hkne]

theorem installProduces_ok (sig : ModuleSig) (ks : List DataKey)
    (s s' : AssemblyState) (hnd : ks.Nodup)
    (h : installProduces sig ks s = (s', none)) :
    ∀ k, k ∈ ks → alookup s.producers k = none := by
  induction ks generalizing s with
  | nil => intro k hk; simp at hk
  | cons k₀ rest ih =>
    intro k hk
    simp only [installProduces] at h
    split at h
    · simp at h
    · rename_i reg' heq
      split at h
      · simp at h
      · rename_i hpr
        have hnd' := hnd
        simp only [List.nodup_cons] at hnd'
        obtain ⟨hk₀, hrest⟩ := hnd'
        simp only [List.mem_cons] at hk
        cases hk with
        | inl hkk =>
          subst hkk
          exact hpr
        | inr hkk =>
          have := ih _ hrest h k hkk
          simp only at this
          have hkne : k₀ ≠ k := by
            intro hcontra
            rw [hcontra] at hk₀
            exact hk₀ hkk
          rw [alookup_aset_ne _ _ _ _ hkne] at this
          exact this

theorem installConsumes_error_shape (sig : ModuleSig) (ks : List DataKey)
    (s : AssemblyState) (b : Binding) (s' : AssemblyState) (b' : Binding)
    (e : ModzError)
    (h : installConsumes sig ks s b = (s', b', some e)) :
    ∃ ksig kex kinc, e = .signatureClash ksig kex kinc := by
  induction ks generalizing s b with
  | nil => simp [installConsumes] at h
  | cons k₀ rest ih =>
    simp only [installConsumes] at h
    split at h
    · rename_i ee heq
      simp only [Prod.mk.injEq] at h
      obtain ⟨h1, h2, h3⟩ := h
      simp only [registryValidate] at heq
      split at heq
      · split at heq
        · simp at heq
        · injection heq with heq
          exact ⟨_, _, _, by rw [← heq] at h3; injection h3 with h3; exact h3.symm⟩
      · simp at heq
    · split at h
      · exact ih _ _ h
      · exact ih _ _ h

theorem installProduces_shape (sig : ModuleSig) (ks : List DataKey)
    (s : AssemblyState) : ∃ reg pr,
    (installProduces sig ks s).1 = { s with registry := reg, producers := pr } := by
  induction ks generalizing s with
  | nil => exact ⟨s.registry, s.producers, rfl⟩
  | cons k₀ rest ih =>
    simp only [installProduces]
    split
    · exact ⟨s.registry, s.producers, rfl⟩
    · rename_i reg' heq
      split
      · exact ⟨reg', s.producers, rfl⟩
      · obtain ⟨reg₂, pr₂, hsh⟩ := ih
          { s with registry := reg', producers := aset s.producers k₀ sig }
        exact ⟨reg₂, pr₂, hsh.trans rfl⟩

theorem installConsumes_shape (sig : ModuleSig) (ks : List DataKey)
    (s : AssemblyState) (b : Binding) : ∃ reg wt,
    (installConsumes sig ks s b).1 = { s with registry := reg, waiters := wt } := by
  induction ks generalizing s b with
  | nil => exact ⟨s.registry, s.waiters, rfl⟩
  | cons k₀ rest ih =>
    simp only [installConsumes]
    split
    · exact ⟨s.registry, s.waiters, rfl⟩
    · rename_i reg' heq
      split
      · obtain ⟨reg₂, wt₂, hsh⟩ := ih
          { s with
            registry := reg'
            waiters := (aset s.waiters k₀
              (((alookup s.waiters k₀).getD []) ++ [sig])) } b
        exact ⟨reg₂, wt₂, hsh.trans rfl⟩
      · obtain ⟨reg₂, wt₂, hsh⟩ := ih { s with registry := reg' }
          { b with waiting := b.waiting.erase k₀ }
        exact ⟨reg₂, wt₂, hsh.trans rfl⟩

theorem installConsumes_waiters (sig : ModuleSig) (ks : List DataKey)
    (s : AssemblyState) (b : Binding) (s' : AssemblyState) (b' : Binding)
    (hnd : ks.Nodup) (h : installConsumes sig ks s b = (s', b', none)) :
    s'.data = s.data ∧
    (∀ k', k' ∉ ks → alookup s'.waiters k' = alookup s.waiters k') ∧
    (∀ k, k ∈ ks → alookup s.data k = none →
      alookup s'.waiters k =
        some (((alookup s.waiters k).getD []) ++ [sig])) := by
  induction ks generalizing s b with
  | nil =>
    simp only [installConsumes, Prod.mk.injEq] at h
    obtain ⟨h1, h2, h3⟩ := h
    subst h1
    exact ⟨rfl, fun _ _ => rfl, fun k hk => by simp at hk⟩
  | cons k₀ rest ih =>
    simp only [List.nodup_cons] at hnd
    obtain ⟨hk₀, hrest⟩ := hnd
    simp only [installConsumes] at h
    split at h
    · simp at h
    · rename_i reg' heq
      split at h
      · rename_i hdat
        obtain ⟨g1, g2, g3⟩ := ih _ _ hrest h
        refine ⟨g1, ?_, ?_⟩
        · intro k' hk'
          simp only [List.mem_cons, not_or] at hk'
          rw [g2 k' hk'.2]
          simp only
          exact alookup_aset_ne _ _ _ _ (fun hcontra => hk'.1 hcontra.symm)
        · intro k hk hdk
          simp only [List.mem_cons] at hk
          cases hk with
          | inl hkk =>
            subst hkk
            rw [g2 k hk₀]
            simp only
            rw [alookup_aset_self]
          | inr hkk =>
            have hne : k₀ ≠ k := fun hcontra => hk₀ (hcontra ▸ hkk)
            have := g3 k hkk hdk
            rw [this]
            simp only
            rw [alookup_aset_ne _ _ _ _ hne]
      · rename_i v hdat
        obtain ⟨g1, g2, g3⟩ := ih _ _ hrest h
        refine ⟨g1, ?_, ?_⟩
        · intro k' hk'
          simp only [List.mem_cons, not_or] at hk'
          exact g2 k' hk'.2
        · intro k hk hdk
          simp only [List.mem_cons] at hk
          cases hk with
          | inl hkk =>
            subst hkk
            rw [hdat] at hdk
            simp at hdk
          | inr hkk =>
            exact g3 k hkk hdk

theorem resolveWaiters_spec (k : DataKey) (wl : List ModuleSig)
    (s : AssemblyState) (hnd : wl.Nodup)
    (hex : ∀ sig, sig ∈ wl → (alookup s.bindings sig).isSome) :
    (∀ sig b, sig ∈ wl → alookup s.bindings sig = some b →
      alookup (resolveWaiters k wl s).bindings sig =
        some { b with waiting := b.waiting.erase k }) ∧
    (∀ sig, sig ∉ wl →
      alookup (resolveWaiters k wl s).bindings sig =
        alookup s.bindings sig) ∧
    (resolveWaiters k wl s).ready =
      s.ready ++ wl.filter (unblockedBy k s) ∧
    (resolveWaiters k wl s).data = s.data ∧
    (resolveWaiters k wl s).waiters = s.waiters := by
  induction wl generalizing s with
  | nil =>
    refine ⟨fun sig b hsig => by simp at hsig, fun sig _ => rfl, ?_, rfl, rfl⟩
    simp [resolveWaiters]
  | cons sig₀ rest ih =>
    simp only [List.nodup_cons] at hnd
    obtain ⟨hs₀, hrest⟩ := hnd
    have hex₀ := hex sig₀ (by simp)
    cases hb₀ : alookup s.bindings sig₀ with
    | none => rw [hb₀] at hex₀; simp at hex₀
    | some b₀ =>
      simp only [resolveWaiters, hb₀]
      have hcore : ∀ s₂ : AssemblyState,
          s₂.bindings = aset s.bindings sig₀
            { b₀ with waiting := b₀.waiting.erase k } →
          s₂.data = s.data → s₂.waiters = s.waiters →
          (∀ sig b, sig ∈ (sig₀ :: rest) → alookup s.bindings sig = some b →
            alookup (resolveWaiters k rest s₂).bindings sig =
              some { b with waiting := b.waiting.erase k }) ∧
          (∀ sig, sig ∉ (sig₀ :: rest) →
            alookup (resolveWaiters k rest s₂).bindings sig =
              alookup s.bindings sig) ∧
          (resolveWaiters k rest s₂).ready =
            s₂.ready ++ rest.filter (unblockedBy k s) ∧
          (resolveWaiters k rest s₂).data = s.data ∧
          (resolveWaiters k rest s₂).waiters = s.waiters := by
        intro s₂ hbind hdat hwait
        have hlkrest : ∀ sig, sig ∈ rest →
            alookup s₂.bindings sig = alookup s.bindings sig := by
          intro sig hsig
          rw [hbind]
          exact alookup_aset_ne _ _ _ _ (fun hcontra => hs₀ (hcontra ▸ hsig))
        have hex' : ∀ sig, sig ∈ rest → (alookup s₂.bindings sig).isSome := by
          intro sig hsig
          rw [hlkrest sig hsig]
          exact hex sig (by simp [hsig])
        obtain ⟨i1, i2, i3, i4, i5⟩ := ih s₂ hrest hex'
        refine ⟨?_, ?_, ?_, by rw [i4, hdat], by rw [i5, hwait]⟩
        · intro sig b hsig hb
          simp only [List.mem_cons] at hsig
          cases hsig with
          | inl hsig =>
            subst hsig
            rw [hb₀] at hb
            injection hb with hbb
            subst hbb
            rw [i2 sig hs₀, hbind]
            exact alookup_aset_self _ _ _
          | inr hsig =>
            rw [i1 sig b hsig (by rw [hlkrest sig hsig]; exact hb)]
        · intro sig hsig
          simp only [List.mem_cons, not_or] at hsig
          rw [i2 sig hsig.2, hbind]
          exact alookup_aset_ne _ _ _ _ (fun hcontra => hsig.1 hcontra.symm)
        · rw [i3]
          have hfc : rest.filter (unblockedBy k s₂) =
              rest.filter (unblockedBy k s) := by
            apply List.filter_congr
            intro sig hsig
            simp only [unblockedBy, hlkrest sig hsig]
          rw [hfc]
      split
      · rename_i hemp
        obtain ⟨j1, j2, j3, j4, j5⟩ := hcore
          { s with
            bindings := aset s.bindings sig₀
              { b₀ with waiting := b₀.waiting.erase k }
            ready := s.ready ++ [sig₀] } rfl rfl rfl
        refine ⟨j1, j2, ?_, j4, j5⟩
        rw [j3]
        have hub : unblockedBy k s sig₀ = true := by
          simp only [unblockedBy, hb₀]
          simp [hemp]
        rw [List.filter_cons, hub]
        simp
      · rename_i hemp
        obtain ⟨j1, j2, j3, j4, j5⟩ := hcore
          { s with
            bindings := aset s.bindings sig₀
              { b₀ with waiting := b₀.waiting.erase k } } rfl rfl rfl
        refine ⟨j1, j2, ?_, j4, j5⟩
        rw [j3]
        have hub : unblockedBy k s sig₀ = false := by
          simp only [unblockedBy, hb₀]
          simp [List.isEmpty_iff, hemp]
        rw [List.filter_cons, hub]
        simp

theorem alookup_append_self {α β : Type} [DecidableEq α]
    (l : List (α × β)) (k : α) (v : β) (h : alookup l k = none) :
    alookup (l ++ [(k, v)]) k = some v := by
  induction l with
  | nil => simp [alookup]
  | cons hd t ih =>
    obtain ⟨k₀, v₀⟩ := hd
    simp only [alookup_cons] at h
    by_cases hk : k₀ = k
    · simp [hk] at h
    · simp only [List.cons_append, alookup_cons, if_neg hk]
      exact ih (by simpa [hk] using h)

theorem installConsumes_binding (sig : ModuleSig) (ks : List DataKey)
    (s : AssemblyState) (b : Binding) : ∃ bw,
    (installConsumes sig ks s b).2.1 = { b with waiting := bw } := by
  induction ks generalizing s b with
  | nil => exact ⟨b.waiting, rfl⟩
  | cons k₀ rest ih =>
    simp only [installConsumes]
    split
    · exact ⟨b.waiting, rfl⟩
    · split
      · exact ih _ _
      · obtain ⟨bw, hsh⟩ := ih { s with registry := _ }
          { b with waiting := b.waiting.erase k₀ }
        exact ⟨bw, hsh.trans rfl⟩

/-- Backward binding frame: every binding present after the operation was
present before, with its produced and declared-produces sets unchanged. -/
def RFrame (s s' : AssemblyState) : Prop :=
  ∀ x b', alookup s'.bindings x = some b' → ∃ b,
    alookup s.bindings x = some b ∧ b'.produced = b.produced ∧
    b'.produces = b.produces

theorem rframe_refl (s : AssemblyState) : RFrame s s :=
  fun _ b' h => ⟨b', h, rfl, rfl⟩

theorem rframe_trans {s s' s'' : AssemblyState} (h1 : RFrame s s')
    (h2 : RFrame s' s'') : RFrame s s'' := by
  intro x b'' hb''
  obtain ⟨b', hb', e1, e2⟩ := h2 x b'' hb''
  obtain ⟨b, hb, f1, f2⟩ := h1 x b' hb'
  exact ⟨b, hb, e1.trans f1, e2.trans f2⟩

theorem inv_transfer {s s' : AssemblyState} (hrf : RFrame s s')
    (hmono : ∀ k v, alookup s.data k = some v → alookup s'.data k = some v)
    (hinv : ProducedInv s) : ProducedInv s' := by
  intro sig b' hb'
  obtain ⟨b, hb, e1, e2⟩ := hrf sig b' hb'
  obtain ⟨i1, i2⟩ := hinv sig b hb
  constructor
  · intro k hk
    rw [e2]
    exact i1 k (by rw [← e1]; exact hk)
  · intro k hk
    have := i2 k (by rw [← e1]; exact hk)
    rw [Option.isSome_iff_exists] at this
    obtain ⟨v, hv⟩ := this
    rw [Option.isSome_iff_exists]
    exact ⟨v, hmono k v hv⟩

theorem rframe_resolveWaiters (k : DataKey) (wl : List ModuleSig)
    (s : AssemblyState) : RFrame s (resolveWaiters k wl s) := by
  induction wl generalizing s with
  | nil => exact rframe_refl s
  | cons sig₀ rest ih =>
    simp only [resolveWaiters]
    split
    · exact ih s
    · rename_i b₀ hb₀
      have hstep : ∀ s₂ : AssemblyState,
          s₂.bindings = aset s.bindings sig₀
            { b₀ with waiting := b₀.waiting.erase k } →
          RFrame s s₂ := by
        intro s₂ hs₂ x b' hb'
        rw [hs₂] at hb'
        by_cases hx : sig₀ = x
        · subst hx
          rw [alookup_aset_self] at hb'
          injection hb' with hbb
          exact ⟨b₀, hb₀, by rw [← hbb], by rw [← hbb]⟩
        · rw [alookup_aset_ne _ _ _ _ hx] at hb'
          exact ⟨b', hb', rfl, rfl⟩
      split
      · exact rframe_trans (hstep _ rfl) (ih _)
      · exact rframe_trans (hstep _ rfl) (ih _)

theorem rframe_putDataValue (kOpt : Option DataKey) (v : Value)
    (s : AssemblyState) : RFrame s (putDataValue kOpt v s).1 := by
  cases kOpt with
  | none => exact rframe_refl s
  | some k =>
    simp only [putDataValue]
    split
    · exact rframe_refl s
    · split
      · exact fun x b' hb' => ⟨b', hb', rfl, rfl⟩
      · have h1 : RFrame s ({ s with data := s.data ++ [(k, v)] } :
            AssemblyState) := fun x b' hb' => ⟨b', hb', rfl, rfl⟩
        refine rframe_trans h1 ?_
        refine rframe_trans
          (rframe_resolveWaiters k
            ((alookup ({ s with data := s.data ++ [(k, v)] } :
              AssemblyState).waiters k).getD [])
            ({ s with data := s.data ++ [(k, v)] } : AssemblyState)) ?_
        exact fun x b' hb' => ⟨b', hb', rfl, rfl⟩

theorem inv_updBinding_of (sig : ModuleSig) (f : Binding → Binding)
    (hf : ∀ b, (f b).produced = b.produced ∧ (f b).produces = b.produces)
    (s : AssemblyState) (hinv : ProducedInv s) :
    ProducedInv (updBinding sig f s) := by
  have hmono : ∀ k v, alookup s.data k = some v →
      alookup (updBinding sig f s).data k = some v := by
    intro k v h
    simp only [updBinding]
    split
    · exact h
    · exact h
  refine inv_transfer ?_ hmono hinv
  simp only [updBinding]
  split
  · exact rframe_refl s
  · rename_i b₀ hb₀
    intro x b' hb'
    simp only at hb'
    by_cases hx : sig = x
    · subst hx
      rw [alookup_aset_self] at hb'
      injection hb' with hbb
      obtain ⟨e1, e2⟩ := hf b₀
      exact ⟨b₀, hb₀, by rw [← hbb]; exact e1, by rw [← hbb]; exact e2⟩
    · rw [alookup_aset_ne _ _ _ _ hx] at hb'
      exact ⟨b', hb', rfl, rfl⟩

theorem inv_putDataValue (kOpt : Option DataKey) (v : Value)
    (s : AssemblyState) (hinv : ProducedInv s) :
    ProducedInv (putDataValue kOpt v s).1 :=
  inv_transfer (rframe_putDataValue kOpt v s)
    (pres_putDataValue kOpt v s).2.2 hinv

theorem inv_install (mOpt : Option GoModule) (p : Option ModuleSig)
    (s : AssemblyState) (hinv : ProducedInv s) :
    ProducedInv (install mOpt p s).1 := by
  cases mOpt with
  | none => exact hinv
  | some m =>
    simp only [install]
    split
    · exact hinv
    · rename_i hfresh
      split
      · exact hinv
      · rename_i prods cons hdisc
        split
        · rename_i s₁ e heq
          obtain ⟨regp, prp, hshp⟩ := installProduces_shape
            (newModuleSignature m) prods s
          rw [heq] at hshp
          have hshpe : s₁ = { s with registry := regp, producers := prp } :=
            hshp
          refine inv_transfer ?_ ?_ hinv
          · intro x b' hb'
            rw [hshpe] at hb'
            exact ⟨b', hb', rfl, rfl⟩
          · intro k v hkv
            rw [hshpe]
            exact hkv
        · rename_i s₁ heq
          obtain ⟨regp, prp, hshp⟩ := installProduces_shape
            (newModuleSignature m) prods s
          rw [heq] at hshp
          have hshpe : s₁ = { s with registry := regp, producers := prp } :=
            hshp
          split
          · rename_i s₂ b₂ e heq2
            obtain ⟨regc, wtc, hshc⟩ := installConsumes_shape
              (newModuleSignature m) cons s₁ _
            rw [heq2] at hshc
            have hshce : s₂ = { s₁ with registry := regc, waiters := wtc } :=
              hshc
            refine inv_transfer ?_ ?_ hinv
            · intro x b' hb'
              rw [hshce, hshpe] at hb'
              exact ⟨b', hb', rfl, rfl⟩
            · intro k v hkv
              rw [hshce, hshpe]
              exact hkv
          · rename_i s₂ b₂ heq2
            obtain ⟨regc, wtc, hshc⟩ := installConsumes_shape
              (newModuleSignature m) cons s₁ _
            rw [heq2] at hshc
            have hshce : s₂ = { s₁ with registry := regc, waiters := wtc } :=
              hshc
            obtain ⟨bw, hbsh⟩ := installConsumes_binding
              (newModuleSignature m) cons s₁
              { moduleSignature := newModuleSignature m, mod := m, parent := p
                produces := prods, consumes := cons, waiting := cons
                produced := [], inProgress := false, configured := false }
            rw [heq2] at hbsh
            have hbshe : b₂ = _ := hbsh
            intro x b' hb'
            have hbl : (if b₂.waiting = [] then
                { s₂ with ready := s₂.ready ++ [newModuleSignature m] }
                else s₂).bindings = s₂.bindings := by
              split <;> rfl
            simp only [hbl] at hb'
            by_cases hx : newModuleSignature m = x
            · subst hx
              rw [alookup_aset_self] at hb'
              injection hb' with hbb
              subst hbb
              rw [hbshe]
              constructor
              · intro k hk
                simp at hk
              · intro k hk
                simp at hk
            · rw [alookup_aset_ne _ _ _ _ hx] at hb'
              have hb'' : alookup s.bindings x = some b' := by
                rw [hshce, hshpe] at hb'
                exact hb'
              obtain ⟨i1, i2⟩ := hinv x b' hb''
              refine ⟨i1, ?_⟩
              intro k hk
              have hv := i2 k hk
              have hdl : (if b₂.waiting = [] then
                  { s₂ with ready := s₂.ready ++ [newModuleSignature m] }
                  else s₂).data = s₂.data := by
                split <;> rfl
              show (alookup (if b₂.waiting = [] then
                  { s₂ with ready := s₂.ready ++ [newModuleSignature m] }
                  else s₂).data k).isSome = true
              rw [hdl, hshce, hshpe]
              exact hv

theorem inv_binderInstall (sig : ModuleSig) (m : GoModule)
    (s : AssemblyState) (hinv : ProducedInv s) :
    ProducedInv (binderInstall sig m s).1 := by
  simp only [binderInstall]
  split
  · exact hinv
  · split
    · exact hinv
    · exact inv_install _ _ s hinv

theorem putDataValue_ok_data (k : DataKey) (v : Value) (s : AssemblyState)
    (h : (putDataValue (some k) v s).2 = none) :
    alookup (putDataValue (some k) v s).1.data k = some v := by
  simp only [putDataValue] at h ⊢
  split at h
  · simp at h
  · rename_i hd
    rw [if_neg hd]
    have hdn : alookup s.data k = none := by
      cases hlk : alookup s.data k with
      | none => rfl
      | some w => rw [hlk] at hd; simp at hd
    have happ : alookup (s.data ++ [(k, v)]) k = some v :=
      alookup_append_self _ _ _ hdn
    split
    · exact happ
    · have hdres : (resolveWaiters k
          ((alookup ({ s with data := s.data ++ [(k, v)] } :
            AssemblyState).waiters k).getD [])
          ({ s with data := s.data ++ [(k, v)] } : AssemblyState)).data =
          ({ s with data := s.data ++ [(k, v)] } : AssemblyState).data := by
        generalize ({ s with data := s.data ++ [(k, v)] } :
          AssemblyState) = st
        generalize (alookup st.waiters k).getD [] = wl
        induction wl generalizing st with
        | nil => rfl
        | cons sig₀ rest ih =>
          simp only [resolveWaiters]
          split
          · exact ih _
          · split
            · exact (ih _).trans rfl
            · exact (ih _).trans rfl
      simp only
      rw [hdres]
      exact happ

theorem inv_binderPutData (sig : ModuleSig) (k : DataKey) (v : Value)
    (s : AssemblyState) (hinv : ProducedInv s) :
    ProducedInv (binderPutData sig k v s).1 := by
  simp only [binderPutData]
  split
  · exact hinv
  · rename_i b hb
    split
    · exact hinv
    · split
      · exact hinv
      · rename_i hip hdecl
        split
        · rename_i s₁ heq
          have hok : (putDataValue (some k) v s).2 = none := by
            rw [heq]
          have hdat : alookup s₁.data k = some v := by
            have := putDataValue_ok_data k v s hok
            rw [heq] at this
            exact this
          have hinv₁ : ProducedInv s₁ := by
            have := inv_putDataValue (some k) v s hinv
            rw [heq] at this
            exact this
          have hrf₁ := rframe_putDataValue (some k) v s
          rw [heq] at hrf₁
          simp only [updBinding]
          split
          · exact hinv₁
          · rename_i b₁ hb₁
            intro x b' hb'
            simp only at hb'
            by_cases hx : sig = x
            · subst hx
              rw [alookup_aset_self] at hb'
              injection hb' with hbb
              subst hbb
              obtain ⟨b₀, hb₀, e1, e2⟩ := hrf₁ sig b₁ hb₁
              rw [hb] at hb₀
              injection hb₀ with hb₀
              subst hb₀
              obtain ⟨i1, i2⟩ := hinv₁ sig b₁ hb₁
              constructor
              · intro kk hkk
                simp only [List.mem_append, List.mem_singleton] at hkk
                cases hkk with
                | inl hkk => exact i1 kk hkk
                | inr hkk =>
                  subst hkk
                  rw [e2]
                  exact not_not.mp hdecl
              · intro kk hkk
                simp only [List.mem_append, List.mem_singleton] at hkk
                cases hkk with
                | inl hkk => exact i2 kk hkk
                | inr hkk =>
                  subst hkk
                  rw [Option.isSome_iff_exists]
                  exact ⟨v, hdat⟩
            · rw [alookup_aset_ne _ _ _ _ hx] at hb'
              exact hinv₁ x b' hb'
        · rename_i s₁ e heq
          have := inv_putDataValue (some k) v s hinv
          rw [heq] at this
          exact this

theorem inv_execOp (sig : ModuleSig) (op : ConfigOp) (s : AssemblyState)
    (hinv : ProducedInv s) : ProducedInv (execOp sig op s).1 := by
  cases op with
  | installM m => exact inv_binderInstall sig m s hinv
  | getD k =>
    simp only [execOp]
    cases binderGetData sig k s <;> exact hinv
  | putD k v => exact inv_binderPutData sig k v s hinv

theorem inv_runOps (sig : ModuleSig) (sw : Bool) (ops : List ConfigOp)
    (s : AssemblyState) (hinv : ProducedInv s) :
    ProducedInv (runOps sig sw ops s).1 := by
  induction ops generalizing s with
  | nil => exact hinv
  | cons op rest ih =>
    simp only [runOps]
    cases hop : execOp sig op s with
    | mk s' e =>
      have h1 := inv_execOp sig op s hinv
      rw [hop] at h1
      cases e with
      | none => exact ih s' h1
      | some ee =>
        cases sw with
        | true => exact ih s' h1
        | false => exact h1

theorem inv_moduleConfigure (sig : ModuleSig) (m : GoModule)
    (s : AssemblyState) (hinv : ProducedInv s) :
    ProducedInv (moduleConfigure sig m s).1 := by
  simp only [moduleConfigure]
  cases hro : runOps sig m.core.swallow m.ops s with
  | mk s' e =>
    have h1 := inv_runOps sig m.core.swallow m.ops s hinv
    rw [hro] at h1
    cases e <;> exact h1

theorem inv_configureModule (sig : ModuleSig) (s : AssemblyState)
    (hinv : ProducedInv s) : ProducedInv (configureModule sig s).1 := by
  simp only [configureModule]
  split
  · exact hinv
  · rename_i b hb
    split
    · exact hinv
    · cases hmc : moduleConfigure sig b.mod
        (updBinding sig
          (fun b0 => { b0 with configured := true, inProgress := true }) s) with
      | mk s₂ e₂ =>
        have h1 : ProducedInv s₂ := by
          have h0 := inv_updBinding_of sig
            (fun b0 => { b0 with configured := true, inProgress := true })
            (fun b0 => ⟨rfl, rfl⟩) s hinv
          have := inv_moduleConfigure sig b.mod
            (updBinding sig
              (fun b0 => { b0 with configured := true, inProgress := true }) s)
            h0
          rw [hmc] at this
          exact this
        have h2 : ProducedInv (updBinding sig
            (fun b0 => { b0 with inProgress := false }) s₂) :=
          inv_updBinding_of sig (fun b0 => { b0 with inProgress := false })
            (fun b0 => ⟨rfl, rfl⟩) s₂ h1
        cases e₂ with
        | some ee => exact h2
        | none =>
          simp only
          split
          · exact h2
          · split <;> exact h2

theorem inv_buildLoop (fuel : Nat) (s s' : AssemblyState)
    (e : Option ModzError) (h : buildLoop fuel s = some (s', e))
    (hinv : ProducedInv s) : ProducedInv s' := by
  induction fuel generalizing s with
  | zero => simp [buildLoop] at h
  | succ n ih =>
    simp only [buildLoop] at h
    cases hr : s.ready with
    | nil =>
      rw [hr] at h
      simp at h
      obtain ⟨h1, h2⟩ := h
      subst h1
      exact hinv
    | cons sig rest =>
      rw [hr] at h
      simp only at h
      cases hcm : configureModule sig { s with ready := rest } with
      | mk s₁ e₁ =>
        rw [hcm] at h
        have hinv₁ : ProducedInv s₁ := by
          have h0 : ProducedInv ({ s with ready := rest } : AssemblyState) := by
            intro x b hbx
            exact hinv x b hbx
          have := inv_configureModule sig { s with ready := rest } h0
          rw [hcm] at this
          exact this
        cases e₁ with
        | none => exact ih s₁ h hinv₁
        | some ee =>
          simp at h
          obtain ⟨h1, h2⟩ := h
          subst h1
          exact hinv₁

theorem inv_Build (fuel : Nat) (s s' : AssemblyState) (e : Option ModzError)
    (h : Build fuel s = some (s', e)) (hinv : ProducedInv s) :
    ProducedInv s' := by
  simp only [Build] at h
  split at h
  · simp at h
    obtain ⟨h1, h2⟩ := h
    subst h1
    exact hinv
  · split at h
    · simp at h
    · rename_i s₁ e₁ heq
      have := inv_buildLoop fuel { s with built := true } s₁ (some e₁) heq
        (fun x b hbx => hinv x b hbx)
      simp at h
      obtain ⟨h1, h2⟩ := h
      subst h1
      exact this
    · rename_i s₁ heq
      have h1 := inv_buildLoop fuel { s with built := true } s₁ none heq
        (fun x b hbx => hinv x b hbx)
      split at h
      · simp at h
        obtain ⟨h2, h3⟩ := h
        subst h2
        intro x b hbx
        exact h1 x b hbx
      · simp at h
        obtain ⟨h2, h3⟩ := h
        subst h2
        exact h1

theorem inv_installAll (mods : List GoModule) (s s' : AssemblyState)
    (h : installAll mods s = .ok s') (hinv : ProducedInv s) :
    ProducedInv s' := by
  induction mods generalizing s with
  | nil =>
    simp only [installAll] at h
    injection h with h
    subst h
    exact hinv
  | cons m rest ih =>
    simp only [installAll] at h
    cases hinst : install (some m) none s with
    | mk s₁ e =>
      rw [hinst] at h
      cases e with
      | some ee => simp at h
      | none =>
        have := inv_install (some m) none s hinv
        rw [hinst] at this
        exact ih s₁ h this

theorem inv_emptyAssembly : ProducedInv emptyAssembly := by
  intro sig b hb
  simp [emptyAssembly, alookup] at hb

theorem configureModule_ok_missing (sig : ModuleSig) (s s' : AssemblyState)
    (h : configureModule sig s = (s', none)) (b' : Binding)
    (hb' : alookup s'.bindings sig = some b') :
    b'.produces.filter (fun k => k ∉ b'.produced) = [] := by
  simp only [configureModule] at h
  split at h
  · simp at h
  · rename_i b hb
    split at h
    · simp at h
    · cases hmc : moduleConfigure sig b.mod
        (updBinding sig
          (fun b0 => { b0 with configured := true, inProgress := true }) s) with
      | mk s₂ e₂ =>
        rw [hmc] at h
        cases e₂ with
        | some ee => simp at h
        | none =>
          simp only at h
          split at h
          · rename_i hlk
            simp only [Prod.mk.injEq] at h
            obtain ⟨h1, h2⟩ := h
            subst h1
            rw [hlk] at hb'
            simp at hb'
          · rename_i b₄ hlk
            split at h
            · rename_i hmiss
              simp only [Prod.mk.injEq] at h
              obtain ⟨h1, h2⟩ := h
              subst h1
              rw [hlk] at hb'
              injection hb' with hb'
              subst hb'
              exact hmiss
            · simp at h

/-! Claim theorems. -/

/-- C1: installing a module that declares the repeatable (Singleton)
capability into an assembly that already holds a module with an equal
signature is, contrary to the claim, NOT a silent no-op: `assembly.install`
has no Singleton check and returns the "already added" error for every
duplicate signature.  This theorem evaluates the code at the failing input:
modS declares the capability, a module with its signature is installed, and
re-installing it returns the install error (the claim, the Singleton doc
comment in module.go and the README all say this must succeed silently). -/
theorem C1_singleton_reinstall_is_rejected_by_install :
    modS.core.isSingleton = true ∧
    (alookup sS.bindings (newModuleSignature modS)).isSome = true ∧
    install (some modS) none sS =
      (sS, some (.alreadyAdded ⟨"app", "S"⟩)) :=
  ⟨rfl, rfl, rfl⟩

/-- C3: when the ready-queue drain finishes with no configuration error,
Build returns an error exactly when the waiter index is non-empty, and that
error names the still-unsatisfied contract keys; concretely, a module
consuming a contract nobody produces (E) and a circular pair (C, D) both
make Build fail with the build-incomplete error naming the unmet keys, and
in the circular case neither module is ever configured. -/
theorem C3_build_incomplete_when_waiters_remain :
    (∀ (fuel : Nat) (s s' : AssemblyState),
      s.built = false →
      buildLoop fuel { s with built := true } = some (s', none) →
      (s'.waiters = [] →
        Build fuel s = some ({ s' with buildCompleted := true }, none)) ∧
      (s'.waiters ≠ [] →
        Build fuel s =
          some (s', some (.buildIncomplete (s'.waiters.map Prod.fst))))) ∧
    (NewAssembly [modE] = .ok sE ∧
      (Build 1 sE).map Prod.snd =
        some (some (.buildIncomplete [keyX])) ∧
      (Build 1 sE).map
          (fun p => (alookup p.1.bindings sigE).map Binding.configured) =
        some (some false)) ∧
    (NewAssembly [modC, modD] = .ok sCD ∧
      (Build 1 sCD).map Prod.snd =
        some (some (.buildIncomplete [keyY, keyX])) ∧
      (Build 1 sCD).map
          (fun p => ((alookup p.1.bindings ⟨"app", "C"⟩).map Binding.configured,
            (alookup p.1.bindings ⟨"app", "D"⟩).map Binding.configured)) =
        some (some false, some false)) := by
  refine ⟨?_, ⟨rfl, rfl, rfl⟩, ⟨rfl, rfl, rfl⟩⟩
  intro fuel s s' hbuilt hloop
  constructor
  · intro hw
    simp only [Build, hbuilt]
    rw [if_neg (by simp)]
    rw [hloop]
    simp [hw]
  · intro hw
    simp only [Build, hbuilt]
    rw [if_neg (by simp)]
    rw [hloop]
    simp [hw]

/-- C3 witness: the general drain theorem applied at the concrete assembly
of E, whose ready queue is empty from the start and whose waiter index
still contains X. -/
theorem C3_build_incomplete_when_waiters_remain_witness :
    Build 1 sE = some ({ sE with built := true },
      some (.buildIncomplete
        (({ sE with built := true } : AssemblyState).waiters.map Prod.fst))) :=
  (C3_build_incomplete_when_waiters_remain.1 1 sE
    { sE with built := true } rfl rfl).2 (by decide)

/-- C4: for a key with no stored value, putDataValue stores the value,
removes the key from the waiting set of every binding listed in the key's
waiter-index entry (in entry order, which install builds FIFO), appends
exactly the bindings whose waiting set thereby empties to the END of the
ready queue (preserving the entry's FIFO order), and deletes the key's
waiter-index entry, leaving every other entry alone; with no waiter entry
only the store changes; if the key already has a value the call fails and
changes nothing; and a successful install of a consumer of a not-yet-
written key appends its signature at the end of that key's waiter entry
(so entries list waiters in install order). -/
theorem C4_put_resolves_waiters_fifo :
    (∀ (s : AssemblyState) (k : DataKey) (v w : Value),
      alookup s.data k = some w →
      putDataValue (some k) v s = (s, some (.alreadySet k))) ∧
    (∀ (s : AssemblyState) (k : DataKey) (v : Value),
      alookup s.data k = none → alookup s.waiters k = none →
      putDataValue (some k) v s =
        ({ s with data := s.data ++ [(k, v)] }, none)) ∧
    (∀ (s : AssemblyState) (k : DataKey) (v : Value) (wl : List ModuleSig),
      alookup s.data k = none → alookup s.waiters k = some wl → wl ≠ [] →
      wl.Nodup → (∀ sig, sig ∈ wl → (alookup s.bindings sig).isSome) →
      (s.waiters.map Prod.fst).Nodup →
      (putDataValue (some k) v s).2 = none ∧
      (putDataValue (some k) v s).1.data = s.data ++ [(k, v)] ∧
      (∀ sig b, sig ∈ wl → alookup s.bindings sig = some b →
        alookup (putDataValue (some k) v s).1.bindings sig =
          some { b with waiting := b.waiting.erase k }) ∧
      (∀ sig, sig ∉ wl →
        alookup (putDataValue (some k) v s).1.bindings sig =
          alookup s.bindings sig) ∧
      (putDataValue (some k) v s).1.ready =
        s.ready ++ wl.filter (unblockedBy k s) ∧
      alookup (putDataValue (some k) v s).1.waiters k = none ∧
      (∀ k', k ≠ k' →
        alookup (putDataValue (some k) v s).1.waiters k' =
          alookup s.waiters k')) ∧
    (∀ (m : GoModule) (p : Option ModuleSig) (s s' : AssemblyState)
        (k : DataKey),
      install (some m) p s = (s', none) → k ∈ m.core.consumesL →
      alookup s.data k = none →
      alookup s'.waiters k =
        some (((alookup s.waiters k).getD []) ++ [newModuleSignature m])) := by
  refine ⟨?_, ?_, ?_, ?_⟩
  · intro s k v w h
    simp [putDataValue, h]
  · intro s k v hd hw
    have hw' : alookup ({ s with data := s.data ++ [(k, v)] } :
        AssemblyState).waiters k = none := hw
    simp [putDataValue, hd, hw']
  · intro s k v wl hd hw hne hnd hex hwnd
    have hstep : putDataValue (some k) v s =
        (let s₁ : AssemblyState := { s with data := s.data ++ [(k, v)] }
         let s₂ := resolveWaiters k wl s₁
         ({ s₂ with waiters := adel s₂.waiters k }, none)) := by
      simp only [putDataValue, hd]
      rw [if_neg (by simp [hd])]
      have hw' : alookup ({ s with data := s.data ++ [(k, v)] } :
          AssemblyState).waiters k = some wl := hw
      rw [hw']
      simp only [Option.getD_some]
      rw [if_neg hne]
    have hex₁ : ∀ sig, sig ∈ wl →
        (alookup ({ s with data := s.data ++ [(k, v)] } :
          AssemblyState).bindings sig).isSome := hex
    obtain ⟨r1, r2, r3, r4, r5⟩ :=
      resolveWaiters_spec k wl { s with data := s.data ++ [(k, v)] } hnd hex₁
    rw [hstep]
    refine ⟨rfl, ?_, ?_, ?_, ?_, ?_, ?_⟩
    · simp only
      rw [r4]
    · intro sig b hsig hb
      simp only
      exact r1 sig b hsig hb
    · intro sig hsig
      simp only
      exact r2 sig hsig
    · simp only
      rw [r3]
      have : wl.filter (unblockedBy k
          ({ s with data := s.data ++ [(k, v)] } : AssemblyState)) =
          wl.filter (unblockedBy k s) := by
        apply List.filter_congr
        intro sig hsig
        rfl
      rw [this]
    · simp only
      rw [r5]
      exact alookup_adel_self _ _ (by exact hwnd)
    · intro k' hk'
      simp only
      rw [r5]
      exact alookup_adel_ne _ _ _ hk'
  · intro m p s s' k h hk hd
    simp only [install] at h
    split at h
    · simp at h
    · split at h
      · simp at h
      · rename_i prods cons hdisc
        obtain ⟨hpl, hcl, hpnd, hcnd⟩ := discoverModule_ok hdisc
        split at h
        · simp at h
        · rename_i s₁ heq
          split at h
          · simp at h
          · rename_i s₂ b₂ heq2
            obtain ⟨regp, prp, hshp⟩ :=
              installProduces_shape (newModuleSignature m) prods s
            rw [heq] at hshp
            simp only at hshp
            obtain ⟨g1, g2, g3⟩ := installConsumes_waiters
              (newModuleSignature m) cons s₁ _ s₂ b₂
              (by rw [hcl]; exact hcnd) heq2
            have hdat₁ : alookup s₁.data k = none := by
              rw [hshp]
              exact hd
            have hwait₁ : alookup s₁.waiters k = alookup s.waiters k := by
              rw [hshp]
            have hentry := g3 k (by rw [hcl]; exact hk) hdat₁
            rw [hwait₁] at hentry
            simp only [Prod.mk.injEq] at h
            obtain ⟨h1, h2⟩ := h
            subst h1
            simp only
            have hready : ∀ st : AssemblyState,
                (if b₂.waiting = [] then { st with ready := st.ready ++ [newModuleSignature m] }
                  else st).waiters = st.waiters := by
              intro st
              split <;> rfl
            rw [hready s₂]
            exact hentry

/-- C4 witness: writing X into the assembly holding consumers E
(waiting on X) and G (waiting on X and Y): the write succeeds, E (now
unblocked) is appended to the ready queue while G is not, the waiter entry
for X is deleted; and installing G appended its signature at the end of
X's waiter entry. -/
theorem C4_put_resolves_waiters_fifo_witness :
    (putDataValue (some keyX) 7 sW).2 = none ∧
    (putDataValue (some keyX) 7 sW).1.ready =
      sW.ready ++ [sigE, sigG].filter (unblockedBy keyX sW) ∧
    alookup (putDataValue (some keyX) 7 sW).1.waiters keyX = none ∧
    alookup (install (some modG) none sE).1.waiters keyX =
      some (((alookup sE.waiters keyX).getD []) ++ [newModuleSignature modG]) := by
  have h := C4_put_resolves_waiters_fifo.2.2.1 sW keyX 7 [sigE, sigG] rfl rfl
    (by decide) (by decide) (by decide) (by decide)
  exact ⟨h.1, h.2.2.2.2.1, h.2.2.2.2.2.1,
    C4_put_resolves_waiters_fifo.2.2.2 modG none sE
      (install (some modG) none sE).1 keyX rfl (by decide) rfl⟩

/-- C5: the external read `assembly.getData` fails with the state error
whenever `buildCompleted` is not set — whatever the store holds; a read can
succeed only when `buildCompleted` is set; a failed Build never sets
`buildCompleted`; a fresh assembly starts with it unset; and concretely, a
store that already holds a value for X still refuses the external read
while the internal read sees the value. -/
theorem C5_external_read_requires_completed_build :
    (∀ (s : AssemblyState) (kOpt : Option DataKey),
      s.buildCompleted = false →
      assemblyGetData kOpt s = .error .notBuilt) ∧
    (∀ (s : AssemblyState) (kOpt : Option DataKey) (v : Value),
      assemblyGetData kOpt s = .ok v → s.buildCompleted = true) ∧
    (∀ (fuel : Nat) (s s' : AssemblyState) (e : ModzError),
      Build fuel s = some (s', some e) →
      s'.buildCompleted = s.buildCompleted) ∧
    (∀ (mods : List GoModule) (s : AssemblyState),
      NewAssembly mods = .ok s → s.buildCompleted = false) ∧
    (sVal.buildCompleted = false ∧ getDataValue (some keyX) sVal = .ok 5 ∧
      assemblyGetData (some keyX) sVal = .error .notBuilt) := by
  refine ⟨?_, ?_, ?_, ?_, rfl, rfl, rfl⟩
  · intro s kOpt h
    simp [assemblyGetData, h]
  · intro s kOpt v h
    by_cases hb : s.buildCompleted
    · exact hb
    · simp [assemblyGetData, hb] at h
  · intro fuel s s' e h
    simp only [Build] at h
    split at h
    · simp at h
      obtain ⟨h1, h2⟩ := h
      subst h1
      rfl
    · split at h
      · simp at h
      · rename_i s₁ e₁ heq
        have hp := pres_buildLoop fuel { s with built := true } s₁ (some e₁) heq
        simp at h
        obtain ⟨h1, h2⟩ := h
        subst h1
        exact hp.1
      · rename_i s₁ heq
        have hp := pres_buildLoop fuel { s with built := true } s₁ none heq
        split at h
        · simp at h
        · simp at h
          obtain ⟨h1, h2⟩ := h
          subst h1
          exact hp.1
  · intro mods s h
    have haux : ∀ (ms : List GoModule) (s₀ s₁ : AssemblyState),
        s₀.buildCompleted = false → installAll ms s₀ = .ok s₁ →
        s₁.buildCompleted = false := by
      intro ms
      induction ms with
      | nil =>
        intro s₀ s₁ h0 hh
        simp only [installAll] at hh
        injection hh with hh
        subst hh
        exact h0
      | cons m rest ih =>
        intro s₀ s₁ h0 hh
        simp only [installAll] at hh
        cases hinst : install (some m) none s₀ with
        | mk s₂ e =>
          rw [hinst] at hh
          cases e with
          | some ee => simp at hh
          | none =>
            have hp := pres_install (some m) none s₀
            rw [hinst] at hp
            exact ih s₂ s₁ (hp.1.trans h0) hh
    exact haux mods emptyAssembly s rfl h

/-- C5 witness: the general parts of the theorem applied at concrete inputs
(the assembly whose store already holds X). -/
theorem C5_external_read_requires_completed_build_witness :
    assemblyGetData (some keyX) sVal = .error .notBuilt ∧
    sS.buildCompleted = false :=
  ⟨C5_external_read_requires_completed_build.1 sVal (some keyX) rfl,
    C5_external_read_requires_completed_build.2.2.2.1 [modS] sS rfl⟩

/-- C9: with the binder in the configuration phase, `getData` on a key not
declared in Consumes and `putData` on a key not declared in Produces fail
with the undeclared-key error before touching the assembly's store — for
every state, in particular when the store holds (or would accept) the
value. -/
theorem C9_undeclared_key_operations_fail :
    (∀ (s : AssemblyState) (sig : ModuleSig) (k : DataKey),
      (∃ b, alookup s.bindings sig = some b ∧ b.inProgress = true ∧
        k ∉ b.consumes) →
      binderGetData sig k s = .error (.undeclaredKey sig k "Consumes")) ∧
    (∀ (s : AssemblyState) (sig : ModuleSig) (k : DataKey) (v : Value),
      (∃ b, alookup s.bindings sig = some b ∧ b.inProgress = true ∧
        k ∉ b.produces) →
      binderPutData sig k v s = (s, some (.undeclaredKey sig k "Produces"))) := by
  constructor
  · intro s sig k ⟨b, hb, hip, hk⟩
    simp [binderGetData, hb, hip, hk]
  · intro s sig k v ⟨b, hb, hip, hk⟩
    simp [binderPutData, hb, hip, hk]

/-- C9 witness: module T is in progress, declares Consumes = {} and
Produces = {X}; reading Y and writing Y both fail with undeclared-key
errors although the engine state is otherwise arbitrary. -/
theorem C9_undeclared_key_operations_fail_witness :
    binderGetData sigT keyY sIP = .error (.undeclaredKey sigT keyY "Consumes") ∧
    binderPutData sigT keyY 3 sIP =
      (sIP, some (.undeclaredKey sigT keyY "Produces")) :=
  ⟨C9_undeclared_key_operations_fail.1 sIP sigT keyY ⟨_, rfl, rfl, by decide⟩,
    C9_undeclared_key_operations_fail.2 sIP sigT keyY 3 ⟨_, rfl, rfl, by decide⟩⟩

/-- C8: the binder's Install, getData and putData return a phase error and
leave the state unchanged whenever the binding is not in the in-progress
phase; a configured binding's configureModule is rejected by the one-shot
transition without running anything; and a completed first configureModule
leaves the binding configured (so a second call is rejected) and out of the
in-progress phase. -/
theorem C8_phase_enforcement :
    (∀ (s : AssemblyState) (sig : ModuleSig) (m : GoModule),
      (∃ b, alookup s.bindings sig = some b ∧ b.inProgress = false) →
      binderInstall sig m s = (s, some (.phaseError "Install" sig))) ∧
    (∀ (s : AssemblyState) (sig : ModuleSig) (k : DataKey),
      (∃ b, alookup s.bindings sig = some b ∧ b.inProgress = false) →
      binderGetData sig k s = .error (.phaseError "getData" sig)) ∧
    (∀ (s : AssemblyState) (sig : ModuleSig) (k : DataKey) (v : Value),
      (∃ b, alookup s.bindings sig = some b ∧ b.inProgress = false) →
      binderPutData sig k v s = (s, some (.phaseError "putData" sig))) ∧
    (∀ (s : AssemblyState) (sig : ModuleSig),
      (∃ b, alookup s.bindings sig = some b ∧ b.configured = true) →
      configureModule sig s = (s, some (.configureOnce sig))) ∧
    (∀ (s s' : AssemblyState) (sig : ModuleSig) (e : Option ModzError)
        (b b' : Binding),
      alookup s.bindings sig = some b → b.configured = false →
      configureModule sig s = (s', e) →
      alookup s'.bindings sig = some b' →
      b'.configured = true ∧ b'.inProgress = false) := by
  refine ⟨?_, ?_, ?_, ?_, ?_⟩
  · intro s sig m ⟨b, hb, hip⟩
    simp [binderInstall, hb, hip]
  · intro s sig k ⟨b, hb, hip⟩
    simp [binderGetData, hb, hip]
  · intro s sig k v ⟨b, hb, hip⟩
    simp [binderPutData, hb, hip]
  · intro s sig ⟨b, hb, hc⟩
    simp [configureModule, hb, hc]
  · intro s s' sig e b b' hb hc hcm hb'
    have hshape : (configureModule sig s).1 =
        updBinding sig (fun b0 => { b0 with inProgress := false })
          (moduleConfigure sig b.mod (updBinding sig
            (fun b0 => { b0 with configured := true, inProgress := true })
            s)).1 := by
      simp only [configureModule, hb]
      rw [if_neg (by simp [hc])]
      cases hmc : moduleConfigure sig b.mod (updBinding sig
          (fun b0 => { b0 with configured := true, inProgress := true }) s) with
      | mk s₂ e₂ =>
        cases e₂ with
        | some ee => rfl
        | none =>
          simp only
          split
          · rfl
          · split <;> rfl
    have hstate : s' = updBinding sig (fun b0 => { b0 with inProgress := false })
        (moduleConfigure sig b.mod (updBinding sig
          (fun b0 => { b0 with configured := true, inProgress := true })
          s)).1 := by
      rw [hcm] at hshape
      exact hshape
    have hb₁ : alookup (updBinding sig
        (fun b0 => { b0 with configured := true, inProgress := true })
        s).bindings sig =
        some { b with configured := true, inProgress := true } :=
      updBinding_lookup_self sig _ s b hb
    obtain ⟨b₂, hb₂, f1, f2, f3, f4, f5, f6⟩ :=
      bframe_moduleConfigure sig b.mod (updBinding sig
        (fun b0 => { b0 with configured := true, inProgress := true }) s)
        sig _ hb₁
    have hb₃ : alookup (updBinding sig
        (fun b0 => { b0 with inProgress := false })
        (moduleConfigure sig b.mod (updBinding sig
          (fun b0 => { b0 with configured := true, inProgress := true })
          s)).1).bindings sig = some { b₂ with inProgress := false } :=
      updBinding_lookup_self sig _ _ b₂ hb₂
    rw [hstate, hb₃] at hb'
    injection hb' with hbeq
    subst hbeq
    exact ⟨f6, rfl⟩

/-- C2: in the tracked binder (modelled from the spec, see above): once a
first error is recorded for a binder, every later Binder operation in the
same call performs nothing and returns the operation-context-already-invalid
(fail-fast) error carrying that first error; a fresh operation that fails
records itself as the first error under its operation name; an operation
that succeeds records nothing; the error configureModule returns is exactly
the recorded first error wrapped with the module identity and the failing
operation (a ConfigurationError), and GetConfigurationError exposes the
recorded error independently of what Configure itself returned — concretely,
the swallowing module T (whose Configure returns nil) still yields the
wrapped first write-once violation. -/
theorem C2_first_error_tracking_and_fail_fast :
    (∀ (ts : TrackedState) (sig : ModuleSig) (op : ConfigOp) (o : String)
        (e : ModzError),
      alookup ts.cfgErrs sig = some (o, e) →
      trackedExecOp sig op ts = (ts, some (.failFast op.operationName e))) ∧
    (∀ (ts ts' : TrackedState) (sig : ModuleSig) (op : ConfigOp)
        (e : ModzError),
      alookup ts.cfgErrs sig = none →
      trackedExecOp sig op ts = (ts', some e) →
      alookup ts'.cfgErrs sig = some (op.operationName, e)) ∧
    (∀ (ts ts' : TrackedState) (sig : ModuleSig) (op : ConfigOp),
      trackedExecOp sig op ts = (ts', none) → ts'.cfgErrs = ts.cfgErrs) ∧
    (∀ (ts : TrackedState) (sig : ModuleSig) (b : Binding),
      alookup ts.base.bindings sig = some b → b.configured = false →
      (trackedConfigureModule sig ts).2 =
        (alookup (trackedConfigureModule sig ts).1.cfgErrs sig).map
          (fun pr => .configurationError sig.name pr.1 pr.2) ∧
      getConfigurationError sig (trackedConfigureModule sig ts).1 =
        (alookup (trackedConfigureModule sig ts).1.cfgErrs sig).map
          Prod.snd) ∧
    (modT.core.swallow = true ∧
      (trackedConfigureModule sigT ⟨sT, []⟩).2 =
        some (.configurationError "T" "putData" (.alreadySet keyX)) ∧
      getConfigurationError sigT (trackedConfigureModule sigT ⟨sT, []⟩).1 =
        some (.alreadySet keyX)) := by
  have hexec : ∀ (ts : TrackedState) (sig : ModuleSig) (op : ConfigOp),
      trackedExecOp sig op ts =
        trackedExec sig op.operationName
          (fun s =>
            match op with
            | .installM m => binderInstall sig m s
            | .getD k =>
              (match binderGetData sig k s with
                | .ok _ => (s, none)
                | .error e => (s, some e))
            | .putD k v => binderPutData sig k v s) ts := by
    intro ts sig op
    cases op <;> rfl
  refine ⟨?_, ?_, ?_, ?_, rfl, rfl, rfl⟩
  · intro ts sig op o e h
    rw [hexec]
    simp only [trackedExec, h]
  · intro ts ts' sig op e h hstep
    rw [hexec] at hstep
    simp only [trackedExec, h] at hstep
    split at hstep
    · simp at hstep
    · rename_i s' e₀ heq
      simp only [Prod.mk.injEq, Option.some.injEq] at hstep
      obtain ⟨h1, h2⟩ := hstep
      subst h1
      subst h2
      simp only
      exact alookup_aset_self _ _ _
  · intro ts ts' sig op h
    rw [hexec] at h
    simp only [trackedExec] at h
    split at h
    · simp at h
    · split at h
      · rename_i s' heq
        simp only [Prod.mk.injEq] at h
        obtain ⟨h1, h2⟩ := h
        subst h1
        rfl
      · simp at h
  · intro ts sig b hb hc
    simp only [trackedConfigureModule, hb]
    rw [if_neg (by simp [hc])]
    cases htmc : trackedModuleConfigure sig b.mod
        { ts with base := (updBinding sig
          (fun b0 => { b0 with configured := true, inProgress := true })
          ts.base) } with
    | mk ts₂ err =>
      simp only
      split
      · rename_i o first hlook
        exact ⟨by simp [hlook], by simp [getConfigurationError, hlook]⟩
      · rename_i hlook
        cases err with
        | some e =>
          simp only
          exact ⟨by simp [alookup_aset_self],
            by simp [getConfigurationError, alookup_aset_self]⟩
        | none =>
          simp only
          split
          · exact ⟨by simp [hlook], by simp [getConfigurationError, hlook]⟩
          · rename_i b' hb'
            split
            · exact ⟨by simp [hlook], by simp [getConfigurationError, hlook]⟩
            · exact ⟨by simp [alookup_aset_self],
                by simp [getConfigurationError, alookup_aset_self]⟩

/-- C2 witness: with the write-once violation on X already recorded for T,
a further putData returns the fail-fast context-invalid error and changes
nothing; a fresh failing putData records itself under "putData"; and the
wrap/exposure part applied to the concrete configuration call of T. -/
theorem C2_first_error_tracking_and_fail_fast_witness :
    trackedExecOp sigT (.putD keyX 3) tsRec =
      (tsRec, some (.failFast "putData" (.alreadySet keyX))) ∧
    alookup (⟨sIPX, [(sigT, ("putData", ModzError.alreadySet keyX))]⟩ :
      TrackedState).cfgErrs sigT = some ("putData", .alreadySet keyX) ∧
    (trackedConfigureModule sigT ⟨sT, []⟩).2 =
      (alookup (trackedConfigureModule sigT ⟨sT, []⟩).1.cfgErrs sigT).map
        (fun pr => .configurationError sigT.name pr.1 pr.2) :=
  ⟨C2_first_error_tracking_and_fail_fast.1 tsRec sigT (.putD keyX 3)
      "putData" (.alreadySet keyX) rfl,
    C2_first_error_tracking_and_fail_fast.2.1 tsFresh
      ⟨sIPX, [(sigT, ("putData", ModzError.alreadySet keyX))]⟩ sigT
      (.putD keyX 2) (.alreadySet keyX) rfl rfl,
    (C2_first_error_tracking_and_fail_fast.2.2.2.1 ⟨sT, []⟩ sigT
      { moduleSignature := sigT, mod := modT, parent := none
        produces := [keyX], consumes := [], waiting := []
        produced := [], inProgress := false, configured := false }
      rfl rfl).1⟩

/-- C6: when the module's Configure call reports no error, configureModule
returns the "did not produce all declared keys" error exactly when some
declared produced key is missing from the binding's produced set, naming
the missing keys — and no error when every declared key was produced;
Build propagates a configuration error as its own result; and concretely,
Build over the key-declaring-but-never-writing module F fails with the
not-produced error naming X, while Build over the writing module A
succeeds. -/
theorem C6_declared_but_not_produced :
    (∀ (s : AssemblyState) (sig : ModuleSig) (b : Binding),
      alookup s.bindings sig = some b → b.configured = false →
      (moduleConfigure sig b.mod (updBinding sig
        (fun b0 => { b0 with configured := true, inProgress := true })
        s)).2 = none →
      ∃ b', alookup (configureModule sig s).1.bindings sig = some b' ∧
        (configureModule sig s).2 =
          (if b'.produces.filter (fun k => k ∉ b'.produced) = [] then none
            else some (.notProduced sig
              (b'.produces.filter (fun k => k ∉ b'.produced))))) ∧
    (∀ (fuel : Nat) (s : AssemblyState) (sig : ModuleSig)
        (rest : List ModuleSig),
      s.built = false → s.ready = sig :: rest →
      (configureModule sig { s with built := true, ready := rest }).2 ≠ none →
      Build (fuel + 1) s =
        some (configureModule sig { s with built := true, ready := rest })) ∧
    ((Build 2 sF).map Prod.snd =
      some (some (.notProduced sigF [keyX]))) ∧
    ((Build 2 sA).map Prod.snd = some none) := by
  refine ⟨?_, ?_, rfl, rfl⟩
  · intro s sig b hb hc hmc2
    cases hmc : moduleConfigure sig b.mod (updBinding sig
        (fun b0 => { b0 with configured := true, inProgress := true }) s) with
    | mk s₂ e₂ =>
      rw [hmc] at hmc2
      simp only at hmc2
      subst hmc2
      have hb₁ := updBinding_lookup_self sig
        (fun b0 => { b0 with configured := true, inProgress := true }) s b hb
      obtain ⟨b₂, hb₂, f1, f2, f3, f4, f5, f6⟩ :=
        bframe_moduleConfigure sig b.mod (updBinding sig
          (fun b0 => { b0 with configured := true, inProgress := true }) s)
          sig _ hb₁
      rw [hmc] at hb₂
      have hb₃ := updBinding_lookup_self sig
        (fun b0 => { b0 with inProgress := false }) s₂ b₂ hb₂
      have hcfg : configureModule sig s =
          (updBinding sig (fun b0 => { b0 with inProgress := false }) s₂,
            if ({ b₂ with inProgress := false } : Binding).produces.filter
                (fun k => k ∉ ({ b₂ with inProgress := false } : Binding).produced) = []
              then none
              else some (.notProduced sig
                (({ b₂ with inProgress := false } : Binding).produces.filter
                  (fun k => k ∉ ({ b₂ with inProgress := false } : Binding).produced)))) := by
        simp only [configureModule, hb]
        rw [if_neg (by simp [hc])]
        rw [hmc]
        simp only [hb₃]
        split <;> rfl
      refine ⟨{ b₂ with inProgress := false }, ?_, ?_⟩
      · rw [hcfg]
        exact hb₃
      · rw [hcfg]
  · intro fuel s sig rest hbuilt hready hcm
    cases hcm2 : configureModule sig { s with built := true, ready := rest } with
    | mk s' e =>
      rw [hcm2] at hcm
      cases e with
      | none => exact absurd rfl hcm
      | some ee =>
        simp only [Build, hbuilt]
        rw [if_neg (by simp)]
        simp only [buildLoop]
        rw [hready]
        dsimp only
        rw [hcm2]

/-- C6 witness: the general parts applied to the concrete module F, whose
binding after installation declares X in produces, and whose Configure does
nothing and returns nil. -/
theorem C6_declared_but_not_produced_witness :
    (∃ b', alookup (configureModule sigF sF).1.bindings sigF = some b' ∧
      (configureModule sigF sF).2 =
        (if b'.produces.filter (fun k => k ∉ b'.produced) = [] then none
          else some (.notProduced sigF
            (b'.produces.filter (fun k => k ∉ b'.produced))))) ∧
    Build 1 sF = some (configureModule sigF { sF with built := true, ready := [] }) :=
  ⟨C6_declared_but_not_produced.1 sF sigF
      { moduleSignature := sigF, mod := modF, parent := none
        produces := [keyX], consumes := [], waiting := []
        produced := [], inProgress := false, configured := false }
      rfl rfl rfl,
    C6_declared_but_not_produced.2.1 0 sF sigF [] rfl rfl (by decide)⟩

/-- C7 counterexample: P1 declares producing X; installing P2, whose
declared produce list is (Y, X), fails with the duplicate-producer error
naming both identities — but the producer index is NOT left unchanged:
Y (processed before the conflict) has been registered to P2.  This refutes
the claim's final clause at an explicit input. -/
theorem C7_counterexample_producer_index_changes :
    (install (some modP2) none sP).2 =
      some (.duplicateProducer keyX ⟨"app", "P1"⟩ ⟨"app", "P2"⟩) ∧
    (install (some modP2) none sP).1.producers ≠ sP.producers ∧
    alookup (install (some modP2) none sP).1.producers keyY =
      some ⟨"app", "P2"⟩ :=
  ⟨rfl, by decide, rfl⟩

/-- C7 amended: installing a second declared producer for a key always
fails with a duplicate-producer error naming both module identities,
independent of whether a value has been written; the conflicting key keeps
its original producer, and the failing install binds nothing and touches
neither the store nor the waiter index — but produce keys of the rejected
module that were processed before the conflicting one remain registered in
the producer index. -/
theorem C7_duplicate_producer_detection :
    (∀ (m : GoModule) (p : Option ModuleSig) (s s' : AssemblyState)
        (k : DataKey) (ex inc : ModuleSig),
      install (some m) p s = (s', some (.duplicateProducer k ex inc)) →
      inc = newModuleSignature m ∧ k ∈ m.core.producesL ∧
      alookup s.producers k = some ex ∧
      alookup s'.producers k = some ex ∧
      s'.bindings = s.bindings ∧ s'.data = s.data ∧
      s'.waiters = s.waiters) ∧
    (∀ (m : GoModule) (p : Option ModuleSig) (s s' : AssemblyState),
      install (some m) p s = (s', none) →
      ∀ k, k ∈ m.core.producesL → alookup s.producers k = none) ∧
    (sP.data = [] ∧
      (install (some modP2) none sP).2 =
        some (.duplicateProducer keyX ⟨"app", "P1"⟩ ⟨"app", "P2"⟩) ∧
      (install (some modP2) none sP).1.producers =
        [(keyX, ⟨"app", "P1"⟩), (keyY, ⟨"app", "P2"⟩)]) := by
  refine ⟨?_, ?_, rfl, rfl, rfl⟩
  · intro m p s s' k ex inc h
    simp only [install] at h
    split at h
    · simp at h
    · split at h
      · rename_i e' hdisc
        simp only [Prod.mk.injEq, Option.some.injEq] at h
        obtain ⟨h1, h2⟩ := h
        obtain ⟨w, sg, hshape⟩ := discoverModule_error_shape hdisc
        rw [hshape] at h2
        simp at h2
      · rename_i prods cons hdisc
        obtain ⟨hpl, hcl, hpnd, hcnd⟩ := discoverModule_ok hdisc
        split at h
        · rename_i s₁ e heq
          simp only [Prod.mk.injEq, Option.some.injEq] at h
          obtain ⟨h1, h2⟩ := h
          subst h1
          subst h2
          obtain ⟨g1, g2, g3, g4, g5, g6, g7⟩ :=
            installProduces_dupError (newModuleSignature m) prods s s₁ k ex
              inc (by rw [hpl]; exact hpnd) heq
          exact ⟨g1, by rw [← hpl]; exact g2, g3, g4, g5, g6, g7⟩
        · rename_i s₁ heq
          split at h
          · rename_i s₂ b₂ e heq2
            simp only [Prod.mk.injEq, Option.some.injEq] at h
            obtain ⟨h1, h2⟩ := h
            obtain ⟨ksig, kex, kinc, hshape⟩ :=
              installConsumes_error_shape _ _ _ _ _ _ _ heq2
            rw [hshape] at h2
            simp at h2
          · simp at h
  · intro m p s s' h
    simp only [install] at h
    split at h
    · simp at h
    · split at h
      · simp at h
      · rename_i prods cons hdisc
        obtain ⟨hpl, hcl, hpnd, hcnd⟩ := discoverModule_ok hdisc
        split at h
        · simp at h
        · rename_i s₁ heq
          intro k hk
          exact installProduces_ok (newModuleSignature m) prods s s₁
            (by rw [hpl]; exact hpnd) heq k (by rw [hpl]; exact hk)

/-- C7 witness: the amended theorem's general parts applied at the concrete
duplicate-producer input (P2 after P1) and at a successful install (P1 into
the empty assembly). -/
theorem C7_duplicate_producer_detection_witness :
    (⟨"app", "P2"⟩ : ModuleSig) = newModuleSignature modP2 ∧
    alookup sP.producers keyX = some ⟨"app", "P1"⟩ ∧
    alookup emptyAssembly.producers keyX = none :=
  ⟨(C7_duplicate_producer_detection.1 modP2 none sP
      (install (some modP2) none sP).1 keyX ⟨"app", "P1"⟩ ⟨"app", "P2"⟩
      rfl).1,
    (C7_duplicate_producer_detection.1 modP2 none sP
      (install (some modP2) none sP).1 keyX ⟨"app", "P1"⟩ ⟨"app", "P2"⟩
      rfl).2.2.1,
    C7_duplicate_producer_detection.2.1 modP1 none emptyAssembly sP rfl keyX
      (by decide)⟩

/-- C10: in every reachable engine state, each binding's produced set is
contained in its declared Produces set and every produced key has a value
in the store (putData records a key only when the store write succeeded);
no engine transition ever removes or overwrites a stored value; and when a
configureModule call on a reachable state reports no error, every key the
binding declared in Produces is readable from the store. -/
theorem C10_produced_subset_and_stored :
    (∀ s, Reachable s → ProducedInv s) ∧
    (∀ s s', StepR s s' → ∀ k v, alookup s.data k = some v →
      alookup s'.data k = some v) ∧
    (∀ (s : AssemblyState) (sig : ModuleSig) (s' : AssemblyState)
        (b' : Binding), Reachable s → configureModule sig s = (s', none) →
      alookup s'.bindings sig = some b' →
      ∀ k, k ∈ b'.produces → (alookup s'.data k).isSome) := by
  have hmono : ∀ s s', StepR s s' → ∀ k v, alookup s.data k = some v →
      alookup s'.data k = some v := by
    intro s s' hstep
    cases hstep with
    | installS mOpt p s s' e heq =>
      have := (pres_install mOpt p s).2.2
      rw [heq] at this
      exact this
    | putS kOpt v s s' e heq =>
      have := (pres_putDataValue kOpt v s).2.2
      rw [heq] at this
      exact this
    | bInstallS sig m s s' e heq =>
      have := (pres_binderInstall sig m s).2.2
      rw [heq] at this
      exact this
    | bPutS sig k v s s' e heq =>
      have := (pres_binderPutData sig k v s).2.2
      rw [heq] at this
      exact this
    | configS sig s s' e heq =>
      have := (pres_configureModule sig s).2.2
      rw [heq] at this
      exact this
    | buildS fuel s s' e heq =>
      simp only [Build] at heq
      split at heq
      · simp at heq
        obtain ⟨h1, h2⟩ := heq
        subst h1
        exact fun k v h => h
      · split at heq
        · simp at heq
        · rename_i s₁ e₁ hloop
          have hp := (pres_buildLoop fuel { s with built := true } s₁
            (some e₁) hloop).2.2
          simp at heq
          obtain ⟨h1, h2⟩ := heq
          subst h1
          exact fun k v h => hp k v h
        · rename_i s₁ hloop
          have hp := (pres_buildLoop fuel { s with built := true } s₁
            none hloop).2.2
          split at heq
          · simp at heq
            obtain ⟨h1, h2⟩ := heq
            subst h1
            exact fun k v h => hp k v h
          · simp at heq
            obtain ⟨h1, h2⟩ := heq
            subst h1
            exact fun k v h => hp k v h
  have hrtg : ∀ (a c : AssemblyState), Relation.ReflTransGen StepR a c →
      ProducedInv a → ProducedInv c := by
    intro a c h
    induction h with
    | refl => exact id
    | tail hab hbc ih =>
      rename_i x y
      intro h0
      have hinvb := ih h0
      cases hbc with
      | installS mOpt p s s' e heq =>
        have := inv_install mOpt p x hinvb
        rw [heq] at this
        exact this
      | putS kOpt v s s' e heq =>
        have := inv_putDataValue kOpt v x hinvb
        rw [heq] at this
        exact this
      | bInstallS sig m s s' e heq =>
        have := inv_binderInstall sig m x hinvb
        rw [heq] at this
        exact this
      | bPutS sig k v s s' e heq =>
        have := inv_binderPutData sig k v x hinvb
        rw [heq] at this
        exact this
      | configS sig s s' e heq =>
        have := inv_configureModule sig x hinvb
        rw [heq] at this
        exact this
      | buildS fuel s s' e heq =>
        exact inv_Build fuel x y e heq hinvb
  have hinv : ∀ s, Reachable s → ProducedInv s := by
    intro s hreach
    obtain ⟨mods, s₀, h0, hsteps⟩ := hreach
    exact hrtg s₀ s hsteps
      (inv_installAll mods emptyAssembly s₀ h0 inv_emptyAssembly)
  refine ⟨hinv, hmono, ?_⟩
  intro s sig s' b' hreach hcm hb'
  have hreach' : Reachable s' := by
    obtain ⟨mods, s₀, h0, hsteps⟩ := hreach
    exact ⟨mods, s₀, h0, hsteps.tail (.configS sig s s' none hcm)⟩
  have hinv' := hinv s' hreach'
  obtain ⟨i1, i2⟩ := hinv' sig b' hb'
  have hmiss := configureModule_ok_missing sig s s' hcm b' hb'
  intro k hk
  have hkp : k ∈ b'.produced := by
    have := List.filter_eq_nil_iff.mp hmiss k hk
    simpa using this
  exact i2 k hkp

/-- C10 witness: the invariant and the configure-success consequence
applied at the concrete reachable assembly of module A, whose Configure
writes 42 to its declared key X. -/
theorem C10_produced_subset_and_stored_witness :
    ProducedInv sA ∧
    (∀ k, k ∈ [keyX] →
      (alookup (configureModule ⟨"app", "A"⟩ sA).1.data k).isSome) := by
  have hreach : Reachable sA :=
    ⟨[modA], sA, rfl, Relation.ReflTransGen.refl⟩
  refine ⟨C10_produced_subset_and_stored.1 sA hreach, ?_⟩
  intro k hk
  exact C10_produced_subset_and_stored.2.2 sA ⟨"app", "A"⟩
    (configureModule ⟨"app", "A"⟩ sA).1 _ hreach rfl rfl k (by
      simp only [List.mem_singleton] at hk
      subst hk
      decide)

/-- C8 witness: module T's binding after installation is not in progress,
so all three operations return phase errors; with the binding marked
configured, configureModule is rejected; and the theorem's last part
applied to a concrete first configureModule call. -/
theorem C8_phase_enforcement_witness :
    binderInstall sigT modS sT = (sT, some (.phaseError "Install" sigT)) ∧
    binderGetData sigT keyX sT = .error (.phaseError "getData" sigT) ∧
    binderPutData sigT keyX 1 sT = (sT, some (.phaseError "putData" sigT)) ∧
    configureModule sigT sCfg = (sCfg, some (.configureOnce sigT)) :=
  ⟨C8_phase_enforcement.1 sT sigT modS ⟨_, rfl, rfl⟩,
    C8_phase_enforcement.2.1 sT sigT keyX ⟨_, rfl, rfl⟩,
    C8_phase_enforcement.2.2.1 sT sigT keyX 1 ⟨_, rfl, rfl⟩,
    C8_phase_enforcement.2.2.2.1 sCfg sigT ⟨_, rfl, rfl⟩⟩

end Modz
